import Mathlib

/-!
Excel-Interview-Bot: session state machine and score aggregation.

A shallow embedding of `src/server.js` (the three request handlers
`/start-session`, `/answer`, `/summary`) together with the properties its
specification states about them.

Modelling conventions.

* JSON numbers are exact rationals and arithmetic on them is exact.  A literal
  that overflows to an infinity is out of the range `[0, 10]` like any other
  out-of-range number.
* `undefined` is `none` in an `Option`; a JSON `null` is `JVal.null`.
* The process-wide `sessions` object is an association list keyed by the session
  id; the ids are the tokens `nanoid()` issues.
* `questionId` and `followupIndex` are integers (the latter may be absent);
  `isFollowup` is the truthiness of the request member.
* A string is a sequence of characters; indexing a string yields one character.
* The three calls to the language model are inputs of the handlers: each handler
  takes the value `callLLM` resolved to.
* An uncaught `TypeError` inside a handler is the reply `thrown`: no response is
  sent and the statements after the throwing one do not run.
-/

namespace InterviewBot

/-! ## JSON values -/

/-- JSON values as `JSON.parse` builds them. -/
inductive JVal where
  | null
  | bool (b : Bool)
  | num (x : ℚ)
  | str (s : String)
  | arr (xs : List JVal)
  | obj (kvs : List (String × JVal))

/-- JavaScript truthiness of a JSON value. -/
def JVal.truthy : JVal → Bool
  | .null => false
  | .bool b => b
  | .num x => decide (x ≠ 0)
  | .str s => decide (s ≠ "")
  | .arr _ => true
  | .obj _ => true

/-- Truthiness of a value that may be `undefined`. -/
def truthy : Option JVal → Bool
  | none => false
  | some v => v.truthy

/-- Indexing `xs[i]` of a JavaScript array by an integer: `undefined` outside
`0 .. length - 1`. -/
def lookupIndex {α : Type} (xs : List α) (i : Int) : Option α :=
  if i < 0 then none else xs[i.toNat]?

/-- The assignment `xs[i] = v` on a JavaScript array whose holes are `none`:
inside the array it replaces the element, past the end it grows the array. -/
def assignIndex {α : Type} (xs : List (Option α)) (i : Nat) (v : α) : List (Option α) :=
  if i < xs.length then xs.set i (some v)
  else xs ++ List.replicate (i - xs.length) none ++ [some v]

/-- `Math.round`: the nearest integer, a tie going up. -/
def jsRound (x : ℚ) : ℤ := ⌊x + 1 / 2⌋

/-! ## Data model -/

/-- The values of a `followups` member that have a `length`: a JSON array or a JSON
string.  Strings are indexed character by character. -/
inductive Followups where
  | array (xs : List JVal)
  | text (s : String)

/-- The test `v.length > 0` on such a value. -/
def Followups.nonEmpty : Followups → Bool
  | .array [] => false
  | .array (_ :: _) => true
  | .text s => decide (s ≠ "")

/-- The indexing `v[k]`: the element of an array, the one-character string of a
string, `undefined` outside of it. -/
def Followups.item : Followups → Int → Option JVal
  | .array xs, k => lookupIndex xs k
  | .text s, k => (lookupIndex s.data k).map (fun c => JVal.str (String.singleton c))

/-- The expression `v || []` for a slot value that may be `undefined`. -/
def Followups.orEmpty : Option Followups → Followups
  | some (.array xs) => .array xs
  | some (.text s) => if s = "" then .array [] else .text s
  | none => .array []

/-- The members of the object parsed from the model's reply to an evaluation
prompt that `/answer` reads.  `score` is any JSON value or absent.  The
`followups` member is `none` when it is absent, `null`, a number or a boolean
(none of which has a positive `length`), and otherwise an array or a string; an
object that carries a `length` member of its own is outside this type. -/
structure RawEvaluation where
  score : Option JVal
  justification : Option JVal
  improvement : Option JVal
  example_answer : Option JVal
  followups : Option Followups

/-- The evaluation object stored in a response record (after lines 119-129 the
score is a number). -/
structure Evaluation where
  score : ℚ
  justification : Option JVal
  improvement : Option JVal
  example_answer : Option JVal
  followups : Option Followups

/-- A `responseEntry` (lines 130-133); `isFollowup` is false when the member is
absent, and `followupIndex` is then absent too. -/
structure ResponseRecord where
  questionId : Int
  answer : Option JVal
  evaluation : Evaluation
  isFollowup : Bool
  followupIndex : Option Int

/-- The session object of line 100.  A slot of `followups` is `none` when the
array has a hole there; otherwise it holds the empty array of line 100 or the value
that line 135 installed. -/
structure Session where
  name : JVal
  topic : JVal
  questions : List JVal
  responses : List ResponseRecord
  followups : List (Option Followups)
  currentFollowupIndex : List Nat
  startTime : Int

/-- What a handler does with the request: a JSON reply, a 400 reply carrying an
error message, or an exception that escapes the handler. -/
inductive Reply (α : Type) where
  | ok (body : α)
  | error (msg : String)
  | thrown

/-- The body of a request to `/answer`. -/
structure AnswerRequest where
  sessionId : String
  questionId : Int
  answer : Option JVal
  isFollowup : Bool
  followupIndex : Option Int

/-! ## `/answer` -/

/-- The fixed evaluation of lines 120-126. -/
def fallbackEvaluation : Evaluation where
  score := 5
  justification := some (.str "Fallback evaluation")
  improvement := some (.str "Fallback improvement")
  example_answer := some (.str "Fallback example")
  followups := some (.array [])

/-- Lines 119-129: `reply` is what `callLLM` resolved to, `none` for `null` and for
every JSON value that is not an object (none of them has a `score` member). -/
def normalizeEvaluation (reply : Option RawEvaluation) : Evaluation :=
  match reply with
  | none => fallbackEvaluation
  | some e =>
    match e.score with
    | some (.num x) =>
      if x < 0 ∨ x > 10 then fallbackEvaluation
      else
        { score := (jsRound (x * 10) : ℚ) / 10
          justification := e.justification
          improvement := e.improvement
          example_answer := e.example_answer
          followups := e.followups }
    | _ => fallbackEvaluation

/-- The test `evaluation.followups && evaluation.followups.length > 0`. -/
def hasFollowups (e : Evaluation) : Bool :=
  match e.followups with
  | some v => v.nonEmpty
  | none => false

/-- The value `session.followups[questionId]`, `undefined` for an index outside the
array or a hole. -/
def slotFollowups (s : Session) (questionId : Int) : Option Followups :=
  (lookupIndex s.followups questionId).join

/-- Lines 110-115: the question the request refers to.  The outer `none` is the
`TypeError` of indexing `undefined` in `session.followups[questionId][followupIndex]`;
`some none` is `undefined`. -/
def resolveQuestion (s : Session) (req : AnswerRequest) : Option (Option JVal) :=
  if req.isFollowup then
    match slotFollowups s req.questionId with
    | none => none
    | some slot =>
      some (match req.followupIndex with
            | none => none
            | some k => slot.item k)
  else some (lookupIndex s.questions req.questionId)

/-- Lines 108-139 of the `/answer` handler on the session found in the store.
`now` is `Date.now()` and `reply` the result of the evaluation call.  The
assignment of line 135 is reached only after `session.questions[questionId]` was
found, so `questionId` is a non-negative index there. -/
def answerSession (s : Session) (now : Int) (req : AnswerRequest)
    (reply : Option RawEvaluation) : Session × Reply Followups :=
  if ((now - s.startTime : ℤ) : ℚ) / 60000 > 30 ∧ truthy req.answer = false then
    (s, .error "Time up")
  else
    match resolveQuestion s req with
    | none => (s, .thrown)
    | some question =>
      if truthy question = false then (s, .error "Invalid question")
      else
        let evaluation := normalizeEvaluation reply
        if req.isFollowup then
          ({ s with responses := s.responses ++
                [{ questionId := req.questionId, answer := req.answer, evaluation := evaluation,
                   isFollowup := true, followupIndex := req.followupIndex }] },
            .ok (.array []))
        else if hasFollowups evaluation then
          let installed := assignIndex s.followups req.questionId.toNat
            (evaluation.followups.getD (.array []))
          ({ s with
              followups := installed
              responses := s.responses ++
                [{ questionId := req.questionId, answer := req.answer,
                   evaluation := { evaluation with followups := none },
                   isFollowup := false, followupIndex := none }] },
            .ok (Followups.orEmpty (lookupIndex installed req.questionId).join))
        else
          ({ s with responses := s.responses ++
                [{ questionId := req.questionId, answer := req.answer, evaluation := evaluation,
                   isFollowup := false, followupIndex := none }] },
            .ok (Followups.orEmpty (slotFollowups s req.questionId)))

/-! ## The session table -/

/-- The `sessions` object: session ids with their session. -/
abbrev Store := List (String × Session)

/-- The look-up `sessions[sessionId]`. -/
def Store.get : Store → String → Option Session
  | [], _ => none
  | (k, s) :: rest, id => if k = id then some s else Store.get rest id

/-- The assignment `sessions[sessionId] = session`. -/
def Store.put : Store → String → Session → Store
  | [], id, v => [(id, v)]
  | (k, s) :: rest, id, v => if k = id then (k, v) :: rest else (k, s) :: Store.put rest id v

/-- The statement `delete sessions[sessionId]`. -/
def Store.delete : Store → String → Store
  | [], _ => []
  | (k, s) :: rest, id => if k = id then Store.delete rest id else (k, s) :: Store.delete rest id

/-- One entry of the `Evaluations` member of a transcript (lines 196-200). -/
structure EvaluationEntry where
  score : ℚ
  justification : Option JVal
  improvement : Option JVal

/-- The transcript object of lines 176-186, without the four narrative members
(`Final Verdict`, `Areas of improvement`, `Pros`, `Cons`), which are text built
from the summary call.  Each of the four maps lists its keys in insertion order;
a value `none` is a member whose value is `undefined`. -/
structure Transcript where
  Name : JVal
  Questions : List (String × Option JVal)
  CandidateAnswers : List (String × Option JVal)
  LLMAnswers : List (String × Option JVal)
  Evaluations : List (String × EvaluationEntry)

/-- The state of the process: the session table and the `transcripts` array. -/
structure Server where
  sessions : Store
  transcripts : List Transcript

/-- The `/answer` handler (lines 104-140). -/
def answer (srv : Server) (now : Int) (req : AnswerRequest) (reply : Option RawEvaluation) :
    Server × Reply Followups :=
  match srv.sessions.get req.sessionId with
  | none => (srv, .error "No session")
  | some s =>
    let out := answerSession s now req reply
    ({ srv with sessions := srv.sessions.put req.sessionId out.1 }, out.2)

/-! ## `/start-session` -/

/-- The built-in list of lines 87-98. -/
def fallbackQuestions : List JVal :=
  [.str "What are advanced uses of VLOOKUP in Excel?",
   .str "How do you optimize large datasets in Excel?",
   .str "Explain how to create a dynamic dashboard in Excel.",
   .str "How can you use Power Query to clean data?",
   .str "What are the benefits of using PivotTables for data analysis?",
   .str "How do you implement conditional formatting with formulas?",
   .str "Describe the use of array formulas in Excel.",
   .str "How do you automate repetitive tasks using VBA?",
   .str "What is the difference between INDEX/MATCH and VLOOKUP?",
   .str "How do you handle errors in Excel formulas?"]

/-- Lines 85-99: `reply` is what `callLLM` resolved to (`null` when the call or the
parse failed). -/
def generateQuestions (reply : JVal) : List JVal :=
  match reply with
  | .arr xs => if xs.length ≠ 10 then fallbackQuestions else xs
  | _ => fallbackQuestions

/-- The object literal of line 100.  `Array(10).fill([])` puts one and the same empty
array in the 10 slots; no handler changes that array in place (line 135 replaces a
slot), so the slots are modelled as 10 empty lists. -/
def newSession (name topic : JVal) (questions : List JVal) (now : Int) : Session where
  name := name
  topic := topic
  questions := questions
  responses := []
  followups := List.replicate 10 (some (.array []))
  currentFollowupIndex := List.replicate 10 0
  startTime := now

/-- The `/start-session` handler (lines 80-102).  `newId` is the token `nanoid()`
returns, `now` is `Date.now()`, `reply` the result of the question call. -/
def startSession (srv : Server) (newId : String) (now : Int) (name topic : Option JVal)
    (reply : JVal) : Server × Reply (String × List JVal) :=
  match name, topic with
  | some n, some t =>
    if n.truthy = false ∨ t.truthy = false then (srv, .error "Missing name or topic")
    else
      let questions := generateQuestions reply
      ({ srv with sessions := srv.sessions.put newId (newSession n t questions now) },
        .ok (newId, questions))
  | _, _ => (srv, .error "Missing name or topic")

/-! ## `/summary` -/

/-- The score of the first main response of slot `i` (line 149 and the first entry
of line 152): 0 when there is none. -/
def mainScore (qa : List ResponseRecord) (i : Int) : ℚ :=
  match qa.find? (fun r => decide (r.questionId = i) && !r.isFollowup) with
  | some m => m.evaluation.score
  | none => 0

/-- The follow-up responses of slot `i` (line 150). -/
def followupResponses (qa : List ResponseRecord) (i : Int) : List ResponseRecord :=
  qa.filter (fun r => decide (r.questionId = i) && r.isFollowup)

/-- The body of the `map` callback of lines 148-156. -/
def slotScore (qa : List ResponseRecord) (i : Int) : ℚ :=
  let scores := (mainScore qa i :: (followupResponses qa i).map (fun f => f.evaluation.score)).filter
    (fun s => decide (s > 0))
  if scores.length ≠ 0 then scores.foldl (fun sum s => sum + s) 0 / scores.length else 0

/-- Lines 148-156. -/
def scoresByMainQuestion (qa : List ResponseRecord) : List ℚ :=
  (List.range 10).map (fun (i : Nat) => slotScore qa (i : Int))

/-- Line 157. -/
def totalScore (qa : List ResponseRecord) : ℚ :=
  (scoresByMainQuestion qa).foldl (fun sum s => sum + s) 0

/-- The loop of lines 159-163 over the slots still to visit, `acc` being
`allQuestions` so far.  `forEach` skips a hole; the elements of an array are pushed;
a string has no `forEach`, so the callback throws (`none`). -/
def pushFollowups : List (Option Followups) → List JVal → Option (List JVal)
  | [], acc => some acc
  | none :: rest, acc => pushFollowups rest acc
  | some (.array xs) :: rest, acc => pushFollowups rest (acc ++ xs)
  | some (.text _) :: _, _ => none

/-- Lines 158-163: the base questions followed by the installed follow-up questions
in slot order, `none` when the loop throws. -/
def allQuestions (s : Session) : Option (List JVal) :=
  pushFollowups s.followups s.questions

/-- The rendering of an integer inside a template literal. -/
def showInt (i : Int) : String := toString i

/-- Lines 188-192: the key of a response in the `Questions` map.  An absent
`followupIndex` renders as `NaN`. -/
def questionKey (r : ResponseRecord) : String :=
  if r.isFollowup then
    "Q" ++ showInt (r.questionId + 1) ++ "." ++
      (match r.followupIndex with
       | some k => showInt (k + 1)
       | none => "NaN")
  else "Q" ++ showInt (r.questionId + 1)

/-- Replacement of the first occurrence of a character in a list of characters. -/
def replaceFirstChar (c d : Char) : List Char → List Char
  | [] => []
  | x :: xs => if x = c then d :: xs else x :: replaceFirstChar c d xs

/-- The call `key.replace(c, d)` with one-character strings: only the first
occurrence is replaced. -/
def replaceFirst (key : String) (c d : Char) : String :=
  String.mk (replaceFirstChar c d key.data)

/-- The assignment `object[key] = value` on an object listed in insertion order. -/
def objSet {β : Type} : List (String × β) → String → β → List (String × β)
  | [], key, v => [(key, v)]
  | (k, w) :: rest, key, v => if k = key then (k, v) :: rest else (k, w) :: objSet rest key v

/-- The look-up of an own member: `none` when the object has no such key. -/
def objGet {β : Type} : List (String × β) → String → Option β
  | [], _ => none
  | (k, w) :: rest, key => if k = key then some w else objGet rest key

/-- The right-hand side of line 193.  The outer `none` is the `TypeError` of
indexing `undefined`; `some none` is the value `undefined`. -/
def questionText (s : Session) (r : ResponseRecord) : Option (Option JVal) :=
  if r.isFollowup then
    match slotFollowups s r.questionId with
    | none => none
    | some slot =>
      some (match r.followupIndex with
            | none => none
            | some k => slot.item k)
  else some (lookupIndex s.questions r.questionId)

/-- Lines 193-200 for one response whose question text is `q`. -/
def addEntry (t : Transcript) (r : ResponseRecord) (q : Option JVal) : Transcript :=
  let key := questionKey r
  { t with
    Questions := objSet t.Questions key q
    CandidateAnswers := objSet t.CandidateAnswers (replaceFirst key 'Q' 'A') r.answer
    LLMAnswers := objSet t.LLMAnswers (replaceFirst key 'Q' 'L') r.evaluation.example_answer
    Evaluations := objSet t.Evaluations (replaceFirst key 'Q' 'E')
      { score := r.evaluation.score
        justification := r.evaluation.justification
        improvement := r.evaluation.improvement } }

/-- The `forEach` of lines 187-201 over the responses still to visit; `none` when
a callback throws. -/
def fillTranscript (s : Session) : List ResponseRecord → Transcript → Option Transcript
  | [], t => some t
  | r :: rest, t =>
    match questionText s r with
    | none => none
    | some q => fillTranscript s rest (addEntry t r q)

/-- The in-place `qa.sort((a, b) => a.questionId - b.questionId)`: a stable sort
by slot. -/
def sortResponses (qa : List ResponseRecord) : List ResponseRecord :=
  List.insertionSort (fun a b => a.questionId ≤ b.questionId) qa

/-- The transcript object of lines 176-186 before the loop fills it. -/
def emptyTranscript (s : Session) : Transcript where
  Name := s.name
  Questions := []
  CandidateAnswers := []
  LLMAnswers := []
  Evaluations := []

/-- Lines 176-201 for a session: the filled transcript, `none` when the loop throws. -/
def buildTranscript (s : Session) : Option Transcript :=
  fillTranscript s (sortResponses s.responses) (emptyTranscript s)

/-- The `/summary` handler (lines 142-206).  The write of the transcripts file is
taken to succeed, and `allQuestions` and the reply of the model to the summary
prompt only enter the narrative members, which `Transcript` leaves out.  When the
loop of lines 159-163 throws, nothing has changed yet.  When the loop of lines
187-201 throws, the responses of the session stay sorted and the session stays in
the table. -/
def summary (srv : Server) (sessionId : String) : Server × Reply Unit :=
  match srv.sessions.get sessionId with
  | none => (srv, .error "No session")
  | some s =>
    match allQuestions s with
    | none => (srv, .thrown)
    | some _ =>
      match buildTranscript s with
      | none =>
        ({ srv with sessions :=
            srv.sessions.put sessionId { s with responses := sortResponses s.responses } },
          .thrown)
      | some t =>
        ({ sessions := srv.sessions.delete sessionId, transcripts := srv.transcripts ++ [t] },
          .ok ())

/-! ## Definitions used to state the properties -/

/-- The arithmetic mean of the non-zero entries of a list, 0 when none remains. -/
def meanOfNonZero (xs : List ℚ) : ℚ :=
  let kept := xs.filter (fun s => decide (s ≠ 0))
  if kept = [] then 0 else kept.sum / kept.length

/-- The recorded scores of slot `i`: the score of the slot's main response (the
first one recorded, should there be several; 0 when the slot has none) followed by
the scores of its follow-up responses. -/
def slotEntries (qa : List ResponseRecord) (i : Int) : List ℚ :=
  (match qa.find? (fun r => decide (r.questionId = i ∧ r.isFollowup = false)) with
   | some m => m.evaluation.score
   | none => 0) ::
    (qa.filter (fun r => decide (r.questionId = i ∧ r.isFollowup = true))).map
      (fun r => r.evaluation.score)

/-- A record with the given slot, kind and score, for concrete sessions. -/
def sampleRecord (q : Int) (followup : Option Int) (score : ℚ) : ResponseRecord where
  questionId := q
  answer := some (.str "answer")
  evaluation := { fallbackEvaluation with score := score }
  isFollowup := followup.isSome
  followupIndex := followup

/-- The score of a reply that `/answer` accepts: the reply is an object whose
`score` is a number of `[0, 10]`.  `none` for every other reply. -/
def acceptedScore (reply : Option RawEvaluation) : Option ℚ :=
  match reply with
  | some e =>
    match e.score with
    | some (.num x) => if 0 ≤ x ∧ x ≤ 10 then some x else none
    | _ => none
  | none => none

/-- A session as `/start-session` creates it with the built-in questions, for
concrete scenarios. -/
def sampleSession : Session :=
  newSession (.str "Asha") (.str "Finance") fallbackQuestions 0

/-- A server holding `sampleSession` under the id `s1`. -/
def sampleServer : Server where
  sessions := [("s1", sampleSession)]
  transcripts := []

/-- A main-answer request to slot `q` of session `s1`. -/
def mainRequest (q : Int) : AnswerRequest where
  sessionId := "s1"
  questionId := q
  answer := some (.str "Use INDEX with MATCH")
  isFollowup := false
  followupIndex := none

/-- A follow-up request to position `k` of slot `q` of session `s1`. -/
def followupRequest (q k : Int) : AnswerRequest where
  sessionId := "s1"
  questionId := q
  answer := some (.str "Wrap it in IFERROR")
  isFollowup := true
  followupIndex := some k

/-- A reply of the model with the given score and follow-up questions. -/
def sampleReply (score : JVal) (followups : List JVal) : RawEvaluation where
  score := some score
  justification := some (.str "clear")
  improvement := some (.str "add an example")
  example_answer := some (.str "INDEX/MATCH looks up in any direction")
  followups := some (.array followups)

/-- The server after session `s1` answered the main question of slot 0 and the
model returned two follow-up questions. -/
def afterFirstAnswer : Server :=
  (answer sampleServer 1000 (mainRequest 0)
    (some (sampleReply (.num 8) [.str "F1", .str "F2"]))).1

/-- The server after a second main answer to slot 0, for which the model returned
one follow-up question. -/
def afterSecondAnswer : Server :=
  (answer afterFirstAnswer 2000 (mainRequest 0)
    (some (sampleReply (.num 6) [.str "G1"]))).1

/-- A follow-up request with an empty answer. -/
def emptyFollowupRequest (q k : Int) : AnswerRequest where
  sessionId := "s1"
  questionId := q
  answer := some (.str "")
  isFollowup := true
  followupIndex := some k

/-- A sequence of `/answer` requests handled one after the other, each with the
time of its arrival and the reply of the model to its evaluation call. -/
def runAnswers (srv : Server) : List (Int × AnswerRequest × Option RawEvaluation) → Server
  | [] => srv
  | c :: rest => runAnswers (answer srv c.1 c.2.1 c.2.2).1 rest

/-- Whenever a slot holds a non-empty follow-up list, the responses contain a main
record of that slot. -/
def InstalledAfterMain (s : Session) : Prop :=
  ∀ (i : Int) (v : Followups), slotFollowups s i = some v → v.nonEmpty = true →
    ∃ m ∈ s.responses, m.questionId = i ∧ m.isFollowup = false

/-- Every follow-up record is preceded, in arrival order, by a main record of the
same slot. -/
def FollowupsPreceded (rs : List ResponseRecord) : Prop :=
  ∀ (n : Nat) (r : ResponseRecord), rs[n]? = some r → r.isFollowup = true →
    ∃ (j : Nat) (m : ResponseRecord), j < n ∧ rs[j]? = some m ∧
      m.questionId = r.questionId ∧ m.isFollowup = false

/-- The slot of every follow-up record is a slot of the follow-up table. -/
def FollowupSlotsExist (s : Session) : Prop :=
  ∀ r ∈ s.responses, r.isFollowup = true → ∃ slot, slotFollowups s r.questionId = some slot

/-- The invariant of a session between two requests. -/
structure SessionInv (s : Session) : Prop where
  installed : InstalledAfterMain s
  preceded : FollowupsPreceded s.responses
  slots : FollowupSlotsExist s
  scores : ∀ r ∈ s.responses, 0 ≤ r.evaluation.score ∧ r.evaluation.score ≤ 10

/-- The states of the server that the three handlers reach from an empty session
table (the transcripts file may hold earlier transcripts). -/
inductive Reachable : Server → Prop
  | init (transcripts : List Transcript) :
      Reachable { sessions := [], transcripts := transcripts }
  | start (srv : Server) (newId : String) (now : Int) (name topic : Option JVal) (reply : JVal) :
      Reachable srv → Reachable (startSession srv newId now name topic reply).1
  | answer (srv : Server) (now : Int) (req : AnswerRequest) (reply : Option RawEvaluation) :
      Reachable srv → Reachable (answer srv now req reply).1
  | summary (srv : Server) (sessionId : String) :
      Reachable srv → Reachable (summary srv sessionId).1

/-- The session `s1` of `afterFirstAnswer`: slot 0 holds two follow-up questions and
the responses hold the main answer of slot 0. -/
def installedSession : Session :=
  { sampleSession with
    followups := some (.array [.str "F1", .str "F2"]) :: List.replicate 9 (some (.array []))
    responses :=
      [{ questionId := 0, answer := some (.str "Use INDEX with MATCH"),
         evaluation :=
           { score := (jsRound (8 * 10) : ℚ) / 10
             justification := some (.str "clear")
             improvement := some (.str "add an example")
             example_answer := some (.str "INDEX/MATCH looks up in any direction")
             followups := none },
         isFollowup := false, followupIndex := none }] }

/-- The suffix shared by the four keys of a response: `n` for the main answer of
base question `n`, `n.m` for the answer to its `m`-th follow-up (both counted
from 1). -/
def keySuffix (r : ResponseRecord) : String :=
  if r.isFollowup then
    showInt (r.questionId + 1) ++ "." ++
      (match r.followupIndex with
       | some k => showInt (k + 1)
       | none => "NaN")
  else showInt (r.questionId + 1)

/-- The value that a sequence of assignments `object[f r] = g r`, one per response
in order, leaves under `key`, starting from `init`. -/
def lastWrite {β : Type} (f : ResponseRecord → String) (g : ResponseRecord → β)
    (rs : List ResponseRecord) (key : String) (init : Option β) : Option β :=
  rs.foldl (fun acc r => if f r = key then some (g r) else acc) init

/-- The key scheme of the transcript `t` built from the session `s`: the keys of the
four maps are `Q`, `A`, `L` and `E` followed by the key suffix of a recorded
response; `Questions` maps the key of a main answer to `questions[q]` and the key
of a follow-up answer to `followups[q][k]`, both read from the session as it is
when the transcript is built; the other three maps hold, for a response that shares its key with no other, its
answer, its example answer and its score, justification and improvement. -/
structure TranscriptKeys (s : Session) (t : Transcript) : Prop where
  questionKeys : ∀ key, (objGet t.Questions key).isSome = true ↔
    ∃ r ∈ s.responses, key = "Q" ++ keySuffix r
  answerKeys : ∀ key, (objGet t.CandidateAnswers key).isSome = true ↔
    ∃ r ∈ s.responses, key = "A" ++ keySuffix r
  exampleKeys : ∀ key, (objGet t.LLMAnswers key).isSome = true ↔
    ∃ r ∈ s.responses, key = "L" ++ keySuffix r
  evaluationKeys : ∀ key, (objGet t.Evaluations key).isSome = true ↔
    ∃ r ∈ s.responses, key = "E" ++ keySuffix r
  mainQuestion : ∀ r ∈ s.responses, r.isFollowup = false →
    keySuffix r = showInt (r.questionId + 1) ∧
    objGet t.Questions ("Q" ++ showInt (r.questionId + 1)) =
      some (lookupIndex s.questions r.questionId)
  followupQuestion : ∀ r ∈ s.responses, ∀ k, r.isFollowup = true → r.followupIndex = some k →
    keySuffix r = showInt (r.questionId + 1) ++ "." ++ showInt (k + 1) ∧
    objGet t.Questions ("Q" ++ (showInt (r.questionId + 1) ++ "." ++ showInt (k + 1))) =
      some ((slotFollowups s r.questionId).bind (fun slot => slot.item k))
  entries : ∀ r ∈ s.responses, (∀ r' ∈ s.responses, keySuffix r' = keySuffix r → r' = r) →
    objGet t.CandidateAnswers ("A" ++ keySuffix r) = some r.answer ∧
    objGet t.LLMAnswers ("L" ++ keySuffix r) = some r.evaluation.example_answer ∧
    objGet t.Evaluations ("E" ++ keySuffix r) =
      some { score := r.evaluation.score
             justification := r.evaluation.justification
             improvement := r.evaluation.improvement }

/-- The server after session `s1` also answered the first follow-up question of
slot 0; the model returned a follow-up list for that answer too. -/
def afterFollowupAnswer : Server :=
  (answer afterFirstAnswer 3000 (followupRequest 0 0)
    (some (sampleReply (.num 9) [.str "second level"]))).1

/-- A reply of the model whose `followups` member is a string instead of an
array. -/
def textReply (score : JVal) (followups : String) : RawEvaluation where
  score := some score
  justification := some (.str "clear")
  improvement := some (.str "add an example")
  example_answer := some (.str "INDEX/MATCH looks up in any direction")
  followups := some (.text followups)

/-- The server after session `s1`, whose slot 0 holds `[F1, F2]`, answered the
follow-up question `F2`. -/
def afterSecondFollowup : Server :=
  (answer afterFirstAnswer 3000 (followupRequest 0 1) (some (sampleReply (.num 9) []))).1

/-- The server after session `s1` then answered the main question of slot 0 again
and the model returned the single follow-up question `G1`. -/
def afterOverwrite : Server :=
  (answer afterSecondFollowup 4000 (mainRequest 0)
    (some (sampleReply (.num 6) [.str "G1"]))).1

/-- The server after session `s1` answered the main question of slot 0 and the
model returned a string as `followups`. -/
def afterTextReply : Server :=
  (answer sampleServer 1000 (mainRequest 0)
    (some (textReply (.num 8) "Explain XLOOKUP"))).1

/-- The session `s1` of `afterOverwrite`: slot 0 holds `[G1]`, and the responses
hold the first main answer, the answer to the follow-up question `F2` and the
second main answer. -/
def overwrittenSession : Session :=
  { sampleSession with
    followups := some (.array [.str "G1"]) :: List.replicate 9 (some (.array []))
    responses :=
      [{ questionId := 0, answer := some (.str "Use INDEX with MATCH"),
         evaluation :=
           { score := (jsRound (8 * 10) : ℚ) / 10
             justification := some (.str "clear")
             improvement := some (.str "add an example")
             example_answer := some (.str "INDEX/MATCH looks up in any direction")
             followups := none },
         isFollowup := false, followupIndex := none },
       { questionId := 0, answer := some (.str "Wrap it in IFERROR"),
         evaluation :=
           { score := (jsRound (9 * 10) : ℚ) / 10
             justification := some (.str "clear")
             improvement := some (.str "add an example")
             example_answer := some (.str "INDEX/MATCH looks up in any direction")
             followups := some (.array []) },
         isFollowup := true, followupIndex := some 1 },
       { questionId := 0, answer := some (.str "Use INDEX with MATCH"),
         evaluation :=
           { score := (jsRound (6 * 10) : ℚ) / 10
             justification := some (.str "clear")
             improvement := some (.str "add an example")
             example_answer := some (.str "INDEX/MATCH looks up in any direction")
             followups := none },
         isFollowup := false, followupIndex := none }] }

/-! ## Arithmetic of the aggregation -/

theorem foldl_add_eq_sum (xs : List ℚ) (a : ℚ) :
    xs.foldl (fun sum s => sum + s) a = a + xs.sum := by
  induction xs generalizing a with
  | nil => simp
  | cons x xs ih => simp [List.foldl_cons, ih, add_assoc]

theorem sum_bounds (xs : List ℚ) (h : ∀ x ∈ xs, 0 ≤ x ∧ x ≤ 10) :
    0 ≤ xs.sum ∧ xs.sum ≤ 10 * xs.length := by
  induction xs with
  | nil => simp
  | cons x xs ih =>
    have hx := h x (List.mem_cons_self x xs)
    have := ih (fun y hy => h y (List.mem_cons_of_mem x hy))
    simp only [List.sum_cons, List.length_cons, Nat.cast_add, Nat.cast_one]
    constructor <;> linarith [hx.1, hx.2, this.1, this.2]

theorem filter_pos_eq_filter_ne (xs : List ℚ) (h : ∀ x ∈ xs, 0 ≤ x) :
    xs.filter (fun s => decide (s > 0)) = xs.filter (fun s => decide (s ≠ 0)) := by
  apply List.filter_congr
  intro x hx
  have := h x hx
  by_cases h0 : x = 0
  · simp [h0]
  · have : 0 < x := lt_of_le_of_ne this (Ne.symm h0)
    simp [h0, this]


/-! ## Array indexing -/

theorem lookupIndex_some {α : Type} (xs : List α) (i : Int) (a : α)
    (h : lookupIndex xs i = some a) : 0 ≤ i ∧ i.toNat < xs.length ∧ xs[i.toNat]? = some a := by
  unfold lookupIndex at h
  split at h
  · cases h
  · next hi =>
    refine ⟨by omega, ?_, h⟩
    exact (List.getElem?_eq_some_iff.1 h).1

theorem lookupIndex_assign_same {α : Type} (xs : List (Option α)) (n : Nat) (v : α) :
    lookupIndex (assignIndex xs n v) (n : Int) = some (some v) := by
  unfold lookupIndex assignIndex
  have h0 : ¬ ((n : Int) < 0) := by omega
  rw [if_neg h0, Int.toNat_ofNat]
  by_cases hn : n < xs.length
  · rw [if_pos hn, List.getElem?_set]
    simp [hn]
  · rw [if_neg hn]
    have hlen : (xs ++ List.replicate (n - xs.length) none).length = n := by
      simp; omega
    rw [List.getElem?_append_right (by omega), hlen]
    simp

theorem lookupIndex_assign_other {α : Type} (xs : List (Option α)) (n : Nat) (v : α) (j : Int)
    (hj : j ≠ (n : Int)) :
    (lookupIndex (assignIndex xs n v) j).join = (lookupIndex xs j).join := by
  unfold lookupIndex
  by_cases h0 : j < 0
  · simp [h0]
  · rw [if_neg h0, if_neg h0]
    have hne : j.toNat ≠ n := by omega
    unfold assignIndex
    by_cases hn : n < xs.length
    · rw [if_pos hn, List.getElem?_set]
      simp [Ne.symm hne]
    · rw [if_neg hn]
      by_cases hjl : j.toNat < xs.length
      · rw [List.append_assoc, List.getElem?_append_left hjl]
      · have hnone : xs[j.toNat]? = none := List.getElem?_eq_none (by omega)
        rw [hnone]
        by_cases hjn : j.toNat < n
        · rw [List.getElem?_append_left (by simp; omega),
            List.getElem?_append_right (by omega)]
          rw [List.getElem?_replicate]
          simp
        · rw [List.getElem?_eq_none (by simp; omega)]

theorem assignIndex_length {α : Type} (xs : List (Option α)) (n : Nat) (v : α)
    (h : n < xs.length) : (assignIndex xs n v).length = xs.length := by
  unfold assignIndex
  rw [if_pos h, List.length_set]

theorem lookupIndex_assign_toNat {α : Type} (xs : List (Option α)) (q : Int) (h0 : 0 ≤ q)
    (v : α) : lookupIndex (assignIndex xs q.toNat v) q = some (some v) := by
  have h := lookupIndex_assign_same xs q.toNat v
  rwa [Int.toNat_of_nonneg h0] at h

theorem lookupIndex_assign_toNat_other {α : Type} (xs : List (Option α)) (q j : Int)
    (h0 : 0 ≤ q) (v : α) (hj : j ≠ q) :
    (lookupIndex (assignIndex xs q.toNat v) j).join = (lookupIndex xs j).join :=
  lookupIndex_assign_other xs q.toNat v j (by rw [Int.toNat_of_nonneg h0]; exact hj)

/-! ## The session table -/

theorem Store.get_put_same (st : Store) (id : String) (v : Session) :
    (st.put id v).get id = some v := by
  induction st with
  | nil => simp [Store.put, Store.get]
  | cons p rest ih =>
    obtain ⟨k, s⟩ := p
    by_cases hk : k = id
    · simp [Store.put, Store.get, hk]
    · simp [Store.put, Store.get, hk, ih]

theorem Store.get_put_other (st : Store) (id id' : String) (v : Session) (hne : id' ≠ id) :
    (st.put id v).get id' = st.get id' := by
  induction st with
  | nil => simp [Store.put, Store.get, Ne.symm hne]
  | cons p rest ih =>
    obtain ⟨k, s⟩ := p
    by_cases hk : k = id
    · subst hk
      simp [Store.put, Store.get, Ne.symm hne]
    · by_cases hk' : k = id'
      · subst hk'
        simp [Store.put, Store.get, hk]
      · simp [Store.put, Store.get, hk, hk', ih]

theorem Store.put_get_self (st : Store) (id : String) (s : Session)
    (h : st.get id = some s) : st.put id s = st := by
  induction st with
  | nil => simp [Store.get] at h
  | cons p rest ih =>
    obtain ⟨k, w⟩ := p
    by_cases hk : k = id
    · simp [Store.get, hk] at h
      simp [Store.put, hk, h]
    · simp [Store.get, hk] at h
      simp [Store.put, hk, ih h]

theorem Store.get_delete_same (st : Store) (id : String) : (st.delete id).get id = none := by
  induction st with
  | nil => simp [Store.delete, Store.get]
  | cons p rest ih =>
    obtain ⟨k, s⟩ := p
    by_cases hk : k = id
    · simp [Store.delete, hk, ih]
    · simp [Store.delete, Store.get, hk, ih]

theorem Store.get_delete_other (st : Store) (id id' : String) (hne : id' ≠ id) :
    (st.delete id).get id' = st.get id' := by
  induction st with
  | nil => simp [Store.delete, Store.get]
  | cons p rest ih =>
    obtain ⟨k, s⟩ := p
    by_cases hk : k = id
    · subst hk
      simp [Store.delete, Store.get, Ne.symm hne, ih]
    · by_cases hk' : k = id'
      · subst hk'
        simp [Store.delete, Store.get, hk]
      · simp [Store.delete, Store.get, hk, hk', ih]

/-- The `/answer` handler on a session of the table runs `answerSession` on it and
leaves every other session and the transcripts as they were. -/
theorem answer_of_get (srv : Server) (now : Int) (req : AnswerRequest)
    (reply : Option RawEvaluation) (s : Session)
    (h : srv.sessions.get req.sessionId = some s) :
    answer srv now req reply =
      ({ srv with sessions := srv.sessions.put req.sessionId (answerSession s now req reply).1 },
        (answerSession s now req reply).2) := by
  simp [answer, h]

theorem answer_no_session (srv : Server) (now : Int) (req : AnswerRequest)
    (reply : Option RawEvaluation) (h : srv.sessions.get req.sessionId = none) :
    answer srv now req reply = (srv, .error "No session") := by
  simp [answer, h]

/-- A reply of `/answer` other than `No session` comes from a session of the table,
and the table then holds what `answerSession` made of that session. -/
theorem answer_inv (srv srv' : Server) (now : Int) (req : AnswerRequest)
    (reply : Option RawEvaluation) (out : Reply Followups)
    (h : answer srv now req reply = (srv', out)) (hne : out ≠ .error "No session") :
    ∃ s, srv.sessions.get req.sessionId = some s ∧
      answerSession s now req reply = ((answerSession s now req reply).1, out) ∧
      srv'.sessions.get req.sessionId = some (answerSession s now req reply).1 ∧
      srv'.transcripts = srv.transcripts ∧
      ∀ id, id ≠ req.sessionId → srv'.sessions.get id = srv.sessions.get id := by
  cases hg : srv.sessions.get req.sessionId with
  | none =>
    rw [answer_no_session srv now req reply hg] at h
    exact absurd (Prod.mk.inj h).2.symm hne
  | some s =>
    rw [answer_of_get srv now req reply s hg] at h
    obtain ⟨h1, h2⟩ := Prod.mk.inj h
    subst h1
    refine ⟨s, rfl, by rw [← h2], Store.get_put_same _ _ _, rfl, fun id hid => ?_⟩
    exact Store.get_put_other _ _ _ _ hid

/-! ## Score aggregation -/

theorem slotScore_eq_mean (qa : List ResponseRecord) (i : Int)
    (h : ∀ r ∈ qa, 0 ≤ r.evaluation.score) :
    slotScore qa i = meanOfNonZero (slotEntries qa i) := by
  have hent : mainScore qa i :: (followupResponses qa i).map (fun f => f.evaluation.score)
      = slotEntries qa i := by
    unfold slotEntries mainScore followupResponses
    congr 2
    · congr 1; funext r; simp [Bool.decide_and]
    · congr 1; funext r; simp [Bool.decide_and]
  have hnn : ∀ x ∈ slotEntries qa i, 0 ≤ x := by
    intro x hx
    unfold slotEntries at hx
    rcases List.mem_cons.1 hx with hx | hx
    · subst hx
      split
      · next m hm => exact h m (List.mem_of_find?_eq_some hm)
      · exact le_refl 0
    · obtain ⟨r, hr, rfl⟩ := List.mem_map.1 hx
      exact h r (List.mem_filter.1 hr).1
  unfold slotScore meanOfNonZero
  simp only [hent, filter_pos_eq_filter_ne _ hnn, foldl_add_eq_sum, zero_add]
  by_cases hk : (slotEntries qa i).filter (fun s => decide (s ≠ 0)) = []
  · rw [if_pos hk, hk]; rfl
  · have hlen : ((slotEntries qa i).filter (fun s => decide (s ≠ 0))).length ≠ 0 :=
      fun h0 => hk (List.length_eq_zero.1 h0)
    rw [if_neg hk, if_pos hlen]

/-- C1: for responses recorded with non-negative scores and every slot `i` of
`0..9`, the slot score computed by `/summary` is the arithmetic mean of the
non-zero entries of the list made of the main response's score (0 when the slot
has no main response) followed by the scores of the slot's follow-up responses,
and it is 0 when no non-zero entry remains. -/
theorem scoresByMainQuestion_mean (qa : List ResponseRecord) (i : Nat) (hi : i < 10)
    (h : ∀ r ∈ qa, 0 ≤ r.evaluation.score) :
    (scoresByMainQuestion qa)[i]? = some (meanOfNonZero (slotEntries qa i)) ∧
    ((slotEntries qa i).filter (fun s => decide (s ≠ 0)) = [] →
      (scoresByMainQuestion qa)[i]? = some 0) := by
  have h1 : (scoresByMainQuestion qa)[i]? = some (slotScore qa i) := by
    unfold scoresByMainQuestion
    rw [List.getElem?_map, List.getElem?_range hi]
    rfl
  refine ⟨by rw [h1, slotScore_eq_mean qa i h], fun hk => ?_⟩
  rw [h1, slotScore_eq_mean qa i h]
  unfold meanOfNonZero
  rw [if_pos hk]

/-- Witness of C1: a slot with main score 0 and follow-up scores 7.0 and 8.0 scores
7.5, and a slot whose only recorded score is 0 scores 0. -/
theorem scoresByMainQuestion_mean_witness :
    (scoresByMainQuestion
        [sampleRecord 0 none 0, sampleRecord 0 (some 0) 7, sampleRecord 0 (some 1) 8,
         sampleRecord 1 none 0])[0]? = some (15 / 2) ∧
    (scoresByMainQuestion
        [sampleRecord 0 none 0, sampleRecord 0 (some 0) 7, sampleRecord 0 (some 1) 8,
         sampleRecord 1 none 0])[1]? = some 0 := by
  have hnn : ∀ r ∈ [sampleRecord 0 none 0, sampleRecord 0 (some 0) 7,
      sampleRecord 0 (some 1) 8, sampleRecord 1 none 0], 0 ≤ r.evaluation.score := by
    intro r hr
    simp only [List.mem_cons, List.mem_singleton, List.not_mem_nil, or_false] at hr
    rcases hr with rfl | rfl | rfl | rfl <;> simp [sampleRecord]
  constructor
  · rw [(scoresByMainQuestion_mean _ 0 (by decide) hnn).1]
    norm_num [meanOfNonZero, slotEntries, sampleRecord, List.find?, List.filter]
    exact List.cons_ne_nil _ _
  · rw [(scoresByMainQuestion_mean _ 1 (by decide) hnn).1]
    norm_num [meanOfNonZero, slotEntries, sampleRecord, List.find?, List.filter]

theorem slotEntries_bounds (qa : List ResponseRecord) (i : Int)
    (h : ∀ r ∈ qa, 0 ≤ r.evaluation.score ∧ r.evaluation.score ≤ 10) :
    ∀ x ∈ slotEntries qa i, 0 ≤ x ∧ x ≤ 10 := by
  intro x hx
  unfold slotEntries at hx
  rcases List.mem_cons.1 hx with hx | hx
  · subst hx
    split
    · next m hm => exact h m (List.mem_of_find?_eq_some hm)
    · exact ⟨le_refl 0, by norm_num⟩
  · obtain ⟨r, hr, rfl⟩ := List.mem_map.1 hx
    exact h r (List.mem_filter.1 hr).1

theorem meanOfNonZero_bounds (xs : List ℚ) (h : ∀ x ∈ xs, 0 ≤ x ∧ x ≤ 10) :
    0 ≤ meanOfNonZero xs ∧ meanOfNonZero xs ≤ 10 := by
  unfold meanOfNonZero
  by_cases hk : xs.filter (fun s => decide (s ≠ 0)) = []
  · simp only [hk, if_true]; norm_num
  · have hb := sum_bounds (xs.filter (fun s => decide (s ≠ 0)))
      (fun x hx => h x (List.mem_filter.1 hx).1)
    have hlen : (0 : ℚ) < ((xs.filter (fun s => decide (s ≠ 0))).length : ℚ) := by
      exact_mod_cast List.length_pos.2 hk
    simp only [hk, if_false]
    exact ⟨div_nonneg hb.1 hlen.le, (div_le_iff₀ hlen).2 hb.2⟩

theorem slotScore_bounds (qa : List ResponseRecord) (i : Int)
    (h : ∀ r ∈ qa, 0 ≤ r.evaluation.score ∧ r.evaluation.score ≤ 10) :
    0 ≤ slotScore qa i ∧ slotScore qa i ≤ 10 := by
  rw [slotScore_eq_mean qa i (fun r hr => (h r hr).1)]
  exact meanOfNonZero_bounds _ (slotEntries_bounds qa i h)

/-- C2: when every recorded response carries a score in `[0, 10]`, the
`totalScore` of `/summary` is the sum of the 10 slot scores, each slot score lies
in `[0, 10]`, and `totalScore` lies in `[0, 100]`. -/
theorem totalScore_sum_bounds (qa : List ResponseRecord)
    (h : ∀ r ∈ qa, 0 ≤ r.evaluation.score ∧ r.evaluation.score ≤ 10) :
    (scoresByMainQuestion qa).length = 10 ∧
    totalScore qa = (scoresByMainQuestion qa).sum ∧
    totalScore qa = slotScore qa 0 + slotScore qa 1 + slotScore qa 2 + slotScore qa 3 +
      slotScore qa 4 + slotScore qa 5 + slotScore qa 6 + slotScore qa 7 + slotScore qa 8 +
      slotScore qa 9 ∧
    (∀ x ∈ scoresByMainQuestion qa, 0 ≤ x ∧ x ≤ 10) ∧
    0 ≤ totalScore qa ∧ totalScore qa ≤ 100 := by
  have hlen : (scoresByMainQuestion qa).length = 10 := by
    unfold scoresByMainQuestion; simp
  have hsum : totalScore qa = (scoresByMainQuestion qa).sum := by
    unfold totalScore; rw [foldl_add_eq_sum, zero_add]
  have hall : ∀ x ∈ scoresByMainQuestion qa, 0 ≤ x ∧ x ≤ 10 := by
    intro x hx
    unfold scoresByMainQuestion at hx
    obtain ⟨i, _, rfl⟩ := List.mem_map.1 hx
    exact slotScore_bounds qa i h
  have hb := sum_bounds _ hall
  rw [hlen] at hb
  refine ⟨hlen, hsum, ?_, hall, by rw [hsum]; exact hb.1, by rw [hsum]; norm_num at hb; linarith [hb.2]⟩
  rw [hsum]
  simp [scoresByMainQuestion, List.range_succ, add_assoc]

/-- Witness of C2: a session with two recorded responses. -/
theorem totalScore_sum_bounds_witness :
    totalScore [sampleRecord 0 none 7, sampleRecord 3 none 10] =
      (scoresByMainQuestion [sampleRecord 0 none 7, sampleRecord 3 none 10]).sum ∧
    totalScore [sampleRecord 0 none 7, sampleRecord 3 none 10] ≤ 100 := by
  have h := totalScore_sum_bounds [sampleRecord 0 none 7, sampleRecord 3 none 10]
    (by
      intro r hr
      simp only [List.mem_cons, List.mem_singleton, List.not_mem_nil, or_false] at hr
      rcases hr with rfl | rfl <;> norm_num [sampleRecord])
  exact ⟨h.2.1, h.2.2.2.2.2⟩

/-! ## Score normalisation -/

theorem jsRound_bounds (y : ℚ) (h0 : 0 ≤ y) (h1 : y ≤ 100) :
    0 ≤ jsRound y ∧ jsRound y ≤ 100 := by
  unfold jsRound
  constructor
  · exact Int.floor_nonneg.2 (by linarith)
  · have : ⌊y + 1 / 2⌋ < 101 := Int.floor_lt.2 (by push_cast; linarith)
    omega

theorem jsRound_near (y : ℚ) : |(jsRound y : ℚ) - y| ≤ 1 / 2 := by
  unfold jsRound
  have h1 := Int.floor_le (y + 1 / 2)
  have h2 := Int.lt_floor_add_one (y + 1 / 2)
  rw [abs_le]
  constructor <;> linarith

theorem normalizeEvaluation_rejected (reply : Option RawEvaluation)
    (h : acceptedScore reply = none) : normalizeEvaluation reply = fallbackEvaluation := by
  cases reply with
  | none => rfl
  | some e =>
    obtain ⟨sc, j, i, ex, f⟩ := e
    cases sc with
    | none => rfl
    | some v =>
      cases v with
      | num x =>
        simp only [acceptedScore] at h
        simp only [normalizeEvaluation]
        by_cases hx : 0 ≤ x ∧ x ≤ 10
        · simp [hx] at h
        · have hc : x < 0 ∨ x > 10 := by
            by_contra hc
            push_neg at hc
            exact hx ⟨hc.1, hc.2⟩
          rw [if_pos hc]
      | _ => rfl

theorem normalizeEvaluation_accepted (reply : Option RawEvaluation) (x : ℚ)
    (h : acceptedScore reply = some x) :
    normalizeEvaluation reply =
      { score := (jsRound (x * 10) : ℚ) / 10
        justification := reply.bind (fun e => e.justification)
        improvement := reply.bind (fun e => e.improvement)
        example_answer := reply.bind (fun e => e.example_answer)
        followups := reply.bind (fun e => e.followups) } ∧ 0 ≤ x ∧ x ≤ 10 := by
  cases reply with
  | none => simp [acceptedScore] at h
  | some e =>
    obtain ⟨sc, j, i, ex, f⟩ := e
    cases sc with
    | none => simp [acceptedScore] at h
    | some v =>
      cases v with
      | num y =>
        simp only [acceptedScore] at h
        by_cases hy : 0 ≤ y ∧ y ≤ 10
        · rw [if_pos hy] at h
          have hxy : y = x := Option.some.inj h
          subst hxy
          have hc : ¬ (y < 0 ∨ y > 10) := by
            push_neg; exact hy
          simp only [normalizeEvaluation]
          rw [if_neg hc]
          exact ⟨rfl, hy⟩
        · rw [if_neg hy] at h
          cases h
      | _ => simp [acceptedScore] at h

theorem normalizeEvaluation_score (reply : Option RawEvaluation) :
    0 ≤ (normalizeEvaluation reply).score ∧ (normalizeEvaluation reply).score ≤ 10 ∧
    ∃ n : ℤ, 10 * (normalizeEvaluation reply).score = n := by
  cases h : acceptedScore reply with
  | none =>
    rw [normalizeEvaluation_rejected reply h]
    refine ⟨by norm_num [fallbackEvaluation], by norm_num [fallbackEvaluation], 50, ?_⟩
    norm_num [fallbackEvaluation]
  | some x =>
    obtain ⟨hn, h0, h1⟩ := normalizeEvaluation_accepted reply x h
    have hs : (normalizeEvaluation reply).score = (jsRound (x * 10) : ℚ) / 10 := by rw [hn]
    have hb := jsRound_bounds (x * 10) (by linarith) (by linarith)
    have hb0 : (0 : ℚ) ≤ (jsRound (x * 10) : ℚ) := by exact_mod_cast hb.1
    have hb1 : (jsRound (x * 10) : ℚ) ≤ 100 := by exact_mod_cast hb.2
    rw [hs]
    refine ⟨by linarith, by linarith, jsRound (x * 10), by ring⟩

/-- Every accepted submission appends exactly one record; the record carries the
request's slot, answer, kind and index, and the normalised evaluation (with the
follow-up list removed when it was installed). -/
theorem answerSession_ok (s s' : Session) (now : Int) (req : AnswerRequest)
    (reply : Option RawEvaluation) (body : Followups)
    (h : answerSession s now req reply = (s', .ok body)) :
    ∃ r : ResponseRecord, s'.responses = s.responses ++ [r] ∧
      r.questionId = req.questionId ∧ r.answer = req.answer ∧
      r.isFollowup = req.isFollowup ∧
      (req.isFollowup = true → r.followupIndex = req.followupIndex) ∧
      r.evaluation.score = (normalizeEvaluation reply).score ∧
      r.evaluation.justification = (normalizeEvaluation reply).justification ∧
      r.evaluation.improvement = (normalizeEvaluation reply).improvement ∧
      r.evaluation.example_answer = (normalizeEvaluation reply).example_answer ∧
      (hasFollowups (normalizeEvaluation reply) = false ∨ req.isFollowup = true →
        r.evaluation = normalizeEvaluation reply) ∧
      s'.questions = s.questions ∧ s'.startTime = s.startTime ∧
      s'.name = s.name ∧ s'.topic = s.topic ∧
      (∃ q, resolveQuestion s req = some q ∧ truthy q = true) := by
  unfold answerSession at h
  split at h
  · simp at h
  · split at h
    · simp at h
    · next question hq =>
      split at h
      · simp at h
      · next htr =>
        have htr' : truthy question = true := by simpa using htr
        by_cases hf : req.isFollowup = true
        · simp only [hf, if_true, Prod.mk.injEq, Reply.ok.injEq] at h
          obtain ⟨rfl, -⟩ := h
          exact ⟨_, rfl, rfl, rfl, hf.symm, fun _ => rfl, rfl, rfl, rfl, rfl, fun _ => rfl,
            rfl, rfl, rfl, rfl, question, hq, htr'⟩
        · have hf' : req.isFollowup = false := by simpa using hf
          simp only [hf', Bool.false_eq_true, if_false] at h
          split at h
          · next hh =>
            simp only [Prod.mk.injEq, Reply.ok.injEq] at h
            obtain ⟨rfl, -⟩ := h
            refine ⟨_, rfl, rfl, rfl, hf'.symm, fun hc => absurd hc (by simp [hf']), rfl, rfl, rfl, rfl,
              fun hc => ?_, rfl, rfl, rfl, rfl, question, hq, htr'⟩
            rcases hc with hc | hc
            · rw [hh] at hc; exact absurd hc (by simp)
            · exact absurd hc (by simp [hf'])
          · simp only [Prod.mk.injEq, Reply.ok.injEq] at h
            obtain ⟨rfl, -⟩ := h
            exact ⟨_, rfl, rfl, rfl, hf'.symm, fun hc => absurd hc (by simp [hf']), rfl, rfl, rfl, rfl,
              fun _ => rfl, rfl, rfl, rfl, rfl, question, hq, htr'⟩

/-- C3: whenever `/answer` accepts a submission, whatever the model call returned,
exactly one record is appended to the session's responses and its stored score
lies in `[0, 10]` with 10 times the score an integer; when the reply is absent or
its score is missing, not a number or outside `[0, 10]`, the stored evaluation is
the fixed fallback (score 5.0, empty follow-up list); otherwise the stored score is
the model's score rounded to one decimal place. -/
theorem answer_stored_score (srv srv' : Server) (now : Int) (req : AnswerRequest)
    (reply : Option RawEvaluation) (body : Followups)
    (h : answer srv now req reply = (srv', .ok body)) :
    ∃ (s s' : Session) (r : ResponseRecord),
      srv.sessions.get req.sessionId = some s ∧
      srv'.sessions.get req.sessionId = some s' ∧
      s'.responses = s.responses ++ [r] ∧
      0 ≤ r.evaluation.score ∧ r.evaluation.score ≤ 10 ∧
      (∃ n : ℤ, 10 * r.evaluation.score = n) ∧
      (acceptedScore reply = none →
        r.evaluation = fallbackEvaluation ∧ r.evaluation.score = 5 ∧
          r.evaluation.followups = some (.array [])) ∧
      (∀ x, acceptedScore reply = some x →
        r.evaluation.score = (jsRound (x * 10) : ℚ) / 10 ∧
          |r.evaluation.score - x| ≤ 1 / 20) := by
  obtain ⟨s, hg, hs, hg', -, -⟩ := answer_inv srv srv' now req reply _ h (by simp)
  obtain ⟨r, hr, -, -, -, -, hsc, -, -, -, hev, -⟩ := answerSession_ok s _ now req reply body hs
  have hb := normalizeEvaluation_score reply
  refine ⟨s, _, r, hg, hg', hr, by rw [hsc]; exact hb.1, by rw [hsc]; exact hb.2.1,
    by rw [hsc]; exact hb.2.2, fun hrej => ?_, fun x hx => ?_⟩
  · have hfb := normalizeEvaluation_rejected reply hrej
    have : r.evaluation = fallbackEvaluation := by
      rw [← hfb]
      apply hev
      left
      rw [hfb]
      rfl
    rw [this]
    exact ⟨rfl, rfl, rfl⟩
  · obtain ⟨hn, -, -⟩ := normalizeEvaluation_accepted reply x hx
    have hx' : (normalizeEvaluation reply).score = (jsRound (x * 10) : ℚ) / 10 := by rw [hn]
    rw [hsc, hx']
    refine ⟨rfl, ?_⟩
    have hnear := jsRound_near (x * 10)
    rw [abs_le] at hnear ⊢
    constructor <;> linarith [hnear.1, hnear.2]

/-- Witness of C3: session `s1` receives a main answer to slot 0 and the model
replies with the score 7.25. -/
theorem answer_stored_score_witness :
    answer sampleServer 1000 (mainRequest 0) (some (sampleReply (.num (29 / 4)) [])) =
      ((answer sampleServer 1000 (mainRequest 0) (some (sampleReply (.num (29 / 4)) []))).1,
        .ok (.array [])) ∧
    ∃ (s s' : Session) (r : ResponseRecord),
      sampleServer.sessions.get (mainRequest 0).sessionId = some s ∧
      (answer sampleServer 1000 (mainRequest 0)
        (some (sampleReply (.num (29 / 4)) []))).1.sessions.get (mainRequest 0).sessionId =
          some s' ∧
      s'.responses = s.responses ++ [r] ∧
      0 ≤ r.evaluation.score ∧ r.evaluation.score ≤ 10 ∧
      (∃ n : ℤ, 10 * r.evaluation.score = n) ∧
      (acceptedScore (some (sampleReply (.num (29 / 4)) [])) = none →
        r.evaluation = fallbackEvaluation ∧ r.evaluation.score = 5 ∧
          r.evaluation.followups = some (.array [])) ∧
      (∀ x, acceptedScore (some (sampleReply (.num (29 / 4)) [])) = some x →
        r.evaluation.score = (jsRound (x * 10) : ℚ) / 10 ∧
          |r.evaluation.score - x| ≤ 1 / 20) := by
  have h : answer sampleServer 1000 (mainRequest 0) (some (sampleReply (.num (29 / 4)) [])) =
      ((answer sampleServer 1000 (mainRequest 0) (some (sampleReply (.num (29 / 4)) []))).1,
        .ok (.array [])) := by
    simp [answer, sampleServer, Store.get, answerSession, sampleSession, mainRequest,
      sampleReply, newSession, resolveQuestion, lookupIndex, fallbackQuestions, truthy,
      JVal.truthy, normalizeEvaluation, hasFollowups, Followups.nonEmpty, Followups.orEmpty,
      Followups.item, slotFollowups]
    norm_num
  exact ⟨h, answer_stored_score _ _ _ _ _ _ h⟩

/-! ## Follow-up installation -/

/-- The follow-up table after an accepted submission. -/
theorem answerSession_followups (s s' : Session) (now : Int) (req : AnswerRequest)
    (reply : Option RawEvaluation) (body : Followups)
    (h : answerSession s now req reply = (s', .ok body)) :
    (req.isFollowup = true → s'.followups = s.followups ∧ body = .array []) ∧
    (req.isFollowup = false →
      0 ≤ req.questionId ∧ req.questionId.toNat < s.questions.length ∧
      (hasFollowups (normalizeEvaluation reply) = true →
        s'.followups = assignIndex s.followups req.questionId.toNat
          ((normalizeEvaluation reply).followups.getD (.array [])) ∧
        body = Followups.orEmpty (slotFollowups s' req.questionId)) ∧
      (hasFollowups (normalizeEvaluation reply) = false →
        s'.followups = s.followups ∧
          body = Followups.orEmpty (slotFollowups s req.questionId))) := by
  unfold answerSession at h
  split at h
  · simp at h
  · split at h
    · simp at h
    · next question hq =>
      split at h
      · simp at h
      · next htr =>
        have htr' : truthy question = true := by simpa using htr
        by_cases hf : req.isFollowup = true
        · simp only [hf, if_true, Prod.mk.injEq, Reply.ok.injEq] at h
          obtain ⟨rfl, rfl⟩ := h
          exact ⟨fun _ => ⟨rfl, rfl⟩, fun hc => absurd hc (by simp [hf])⟩
        · have hf' : req.isFollowup = false := by simpa using hf
          have hq' : lookupIndex s.questions req.questionId = question := by
            simp only [resolveQuestion, hf', Bool.false_eq_true, if_false,
              Option.some.injEq] at hq
            exact hq
          obtain ⟨qv, hqv⟩ : ∃ qv, question = some qv := by
            cases question with
            | none => simp [truthy] at htr'
            | some qv => exact ⟨qv, rfl⟩
          rw [hqv] at hq'
          obtain ⟨h0, hlt, -⟩ := lookupIndex_some _ _ _ hq'
          simp only [hf', Bool.false_eq_true, if_false] at h
          refine ⟨fun hc => absurd hc (by simp [hf']), fun _ => ⟨h0, hlt, ?_, ?_⟩⟩
          · intro hh
            rw [if_pos hh] at h
            simp only [Prod.mk.injEq, Reply.ok.injEq] at h
            obtain ⟨rfl, rfl⟩ := h
            exact ⟨rfl, rfl⟩
          · intro hh
            rw [if_neg (by simp [hh])] at h
            simp only [Prod.mk.injEq, Reply.ok.injEq] at h
            obtain ⟨rfl, rfl⟩ := h
            exact ⟨rfl, rfl⟩

theorem hasFollowups_iff (e : Evaluation) :
    hasFollowups e = true ↔ ∃ v, e.followups = some v ∧ v.nonEmpty = true := by
  unfold hasFollowups
  cases hfo : e.followups with
  | none => simp
  | some v => simp

theorem orEmpty_of_nonEmpty (v : Followups) (h : v.nonEmpty = true) :
    Followups.orEmpty (some v) = v := by
  cases v with
  | array xs => rfl
  | text s =>
    have hs : s ≠ "" := by simpa [Followups.nonEmpty] using h
    simp [Followups.orEmpty, hs]

theorem normalizeEvaluation_sample (x : ℚ) (h0 : 0 ≤ x) (h1 : x ≤ 10) (l : List JVal) :
    normalizeEvaluation (some (sampleReply (.num x) l)) =
      { score := (jsRound (x * 10) : ℚ) / 10
        justification := some (.str "clear")
        improvement := some (.str "add an example")
        example_answer := some (.str "INDEX/MATCH looks up in any direction")
        followups := some (.array l) } := by
  have hc : ¬ (x < 0 ∨ x > 10) := by
    push_neg; exact ⟨h0, h1⟩
  simp only [normalizeEvaluation, sampleReply]
  rw [if_neg hc]

theorem afterFirstAnswer_eq :
    afterFirstAnswer = { sessions := [("s1", installedSession)], transcripts := [] } := by
  simp [afterFirstAnswer, installedSession, answer, sampleServer, Store.get, Store.put,
    answerSession, sampleSession, mainRequest, newSession, resolveQuestion, lookupIndex,
    fallbackQuestions, truthy, JVal.truthy, hasFollowups, Followups.nonEmpty, Followups.orEmpty,
      Followups.item, slotFollowups, assignIndex,
    normalizeEvaluation_sample 8 (by norm_num) (by norm_num), List.replicate]

theorem afterFirstAnswer_get : afterFirstAnswer.sessions.get "s1" = some installedSession := by
  rw [afterFirstAnswer_eq]
  simp [Store.get]

theorem afterSecondAnswer_followups :
    answer afterFirstAnswer 2000 (mainRequest 0) (some (sampleReply (.num 6) [.str "G1"])) =
      (afterSecondAnswer, .ok (.array [.str "G1"])) ∧
    (afterSecondAnswer.sessions.get "s1").bind (fun s => slotFollowups s 0) =
      some (.array [.str "G1"]) := by
  unfold afterSecondAnswer
  rw [afterFirstAnswer_eq]
  simp [answer, installedSession, Store.get, Store.put, answerSession,
    sampleSession, mainRequest, newSession, resolveQuestion, lookupIndex,
    fallbackQuestions, truthy, JVal.truthy, hasFollowups, Followups.nonEmpty, Followups.orEmpty,
      Followups.item, slotFollowups, assignIndex,
    normalizeEvaluation_sample 6 (by norm_num) (by norm_num), List.replicate]

/-- C4, counterexample: slot 0 of session `s1` holds the installed list
`[F1, F2]`; a second main answer to slot 0, evaluated with the follow-up list
`[G1]`, replaces it. -/
theorem second_main_answer_overwrites :
    (afterFirstAnswer.sessions.get "s1").bind (fun s => slotFollowups s 0) =
      some (.array [.str "F1", .str "F2"]) ∧
    answer afterFirstAnswer 2000 (mainRequest 0) (some (sampleReply (.num 6) [.str "G1"])) =
      (afterSecondAnswer, .ok (.array [.str "G1"])) ∧
    (afterSecondAnswer.sessions.get "s1").bind (fun s => slotFollowups s 0) =
      some (.array [.str "G1"]) ∧
    (afterSecondAnswer.sessions.get "s1").bind (fun s => slotFollowups s 0) ≠
      (afterFirstAnswer.sessions.get "s1").bind (fun s => slotFollowups s 0) := by
  have h1 : (afterFirstAnswer.sessions.get "s1").bind (fun s => slotFollowups s 0) =
      some (.array [.str "F1", .str "F2"]) := by
    rw [afterFirstAnswer_eq]
    simp [installedSession, Store.get, slotFollowups, lookupIndex]
  refine ⟨h1, afterSecondAnswer_followups.1, afterSecondAnswer_followups.2, ?_⟩
  rw [h1, afterSecondAnswer_followups.2]
  simp

/-- C4, amended: an accepted main-answer submission to slot `i` installs the
follow-up list of the normalised evaluation into `followups[i]` whenever that list
is non-empty (an array with an element, or a string with a character), whatever
list the slot held before, and returns it; when the normalised evaluation carries
no follow-up list or an empty one the follow-up table is unchanged; the lists of
the other slots are never changed. -/
theorem main_answer_installs (srv srv' : Server) (now : Int) (req : AnswerRequest)
    (reply : Option RawEvaluation) (body : Followups)
    (hf : req.isFollowup = false)
    (h : answer srv now req reply = (srv', .ok body)) :
    ∃ s s' : Session,
      srv.sessions.get req.sessionId = some s ∧
      srv'.sessions.get req.sessionId = some s' ∧
      (∀ v, (normalizeEvaluation reply).followups = some v → v.nonEmpty = true →
        slotFollowups s' req.questionId = some v ∧ body = v) ∧
      ((normalizeEvaluation reply).followups = none ∨
          (∃ v, (normalizeEvaluation reply).followups = some v ∧ v.nonEmpty = false) →
        s'.followups = s.followups) ∧
      (∀ j, j ≠ req.questionId → slotFollowups s' j = slotFollowups s j) := by
  obtain ⟨s, hg, hs, hg', -, -⟩ := answer_inv srv srv' now req reply _ h (by simp)
  obtain ⟨-, hmain⟩ := answerSession_followups s _ now req reply body hs
  obtain ⟨h0, -, hyes, hno⟩ := hmain hf
  refine ⟨s, _, hg, hg', ?_, ?_, ?_⟩
  · intro l hl hne
    have hh : hasFollowups (normalizeEvaluation reply) = true :=
      (hasFollowups_iff _).2 ⟨l, hl, hne⟩
    obtain ⟨hfo, hb⟩ := hyes hh
    have hslot : slotFollowups (answerSession s now req reply).1 req.questionId = some l := by
      unfold slotFollowups
      rw [hfo, hl, lookupIndex_assign_toNat _ _ h0]
      rfl
    exact ⟨hslot, by rw [hb, hslot]; exact orEmpty_of_nonEmpty l hne⟩
  · intro hc
    have hh : hasFollowups (normalizeEvaluation reply) = false := by
      cases hx : hasFollowups (normalizeEvaluation reply) with
      | false => rfl
      | true =>
        obtain ⟨l, hl, hne⟩ := (hasFollowups_iff _).1 hx
        rcases hc with hc | ⟨v, hc, hv⟩
        · rw [hc] at hl; cases hl
        · rw [hc] at hl
          cases hl
          rw [hv] at hne
          cases hne
    exact (hno hh).1
  · intro j hj
    cases hx : hasFollowups (normalizeEvaluation reply) with
    | false => unfold slotFollowups; rw [(hno hx).1]
    | true =>
      unfold slotFollowups
      rw [(hyes hx).1]
      exact lookupIndex_assign_toNat_other _ _ _ h0 _ hj

/-- Witness of C4 (amended): the second main answer to slot 0 of session `s1`. -/
theorem main_answer_installs_witness :
    answer afterFirstAnswer 2000 (mainRequest 0) (some (sampleReply (.num 6) [.str "G1"])) =
      (afterSecondAnswer, .ok (.array [.str "G1"])) ∧
    ∃ s s' : Session,
      afterFirstAnswer.sessions.get (mainRequest 0).sessionId = some s ∧
      afterSecondAnswer.sessions.get (mainRequest 0).sessionId = some s' ∧
      (∀ v, (normalizeEvaluation (some (sampleReply (.num 6) [.str "G1"]))).followups = some v →
        v.nonEmpty = true →
        slotFollowups s' (mainRequest 0).questionId = some v ∧
          Followups.array [JVal.str "G1"] = v) ∧
      ((normalizeEvaluation (some (sampleReply (.num 6) [.str "G1"]))).followups = none ∨
          (∃ v, (normalizeEvaluation (some (sampleReply (.num 6) [.str "G1"]))).followups =
            some v ∧ v.nonEmpty = false) →
        s'.followups = s.followups) ∧
      (∀ j, j ≠ (mainRequest 0).questionId → slotFollowups s' j = slotFollowups s j) := by
  exact ⟨afterSecondAnswer_followups.1,
    main_answer_installs _ _ _ _ _ _ rfl afterSecondAnswer_followups.1⟩

/-! ## Follow-up answers -/

/-- C5, counterexample: session `s1` exists and has no follow-up installed.  Past
30 minutes a follow-up submission with an empty answer gets the reply `Time up`,
not `Invalid question`; and a follow-up submission to slot 10, which the follow-up
table does not have, throws before the validity test. -/
theorem followup_without_question_other_failures :
    sampleServer.sessions.get "s1" = some sampleSession ∧
    (slotFollowups sampleSession 0).bind (fun slot => slot.item 0) = none ∧
    answer sampleServer 2000000 (emptyFollowupRequest 0 0) none =
      (sampleServer, .error "Time up") ∧
    slotFollowups sampleSession 10 = none ∧
    answer sampleServer 1000 (followupRequest 10 0) none = (sampleServer, .thrown) := by
  refine ⟨by simp [sampleServer, Store.get], ?_, ?_, ?_, ?_⟩
  · simp [slotFollowups, sampleSession, newSession, Followups.item, lookupIndex,
      List.replicate]
  · simp [answer, sampleServer, Store.get, Store.put, answerSession, sampleSession,
      newSession, emptyFollowupRequest, truthy, JVal.truthy]
    norm_num
  · simp [slotFollowups, sampleSession, newSession, lookupIndex, List.replicate]
  · simp [answer, sampleServer, Store.get, Store.put, answerSession, sampleSession,
      newSession, followupRequest, truthy, JVal.truthy, resolveQuestion, slotFollowups, Followups.item,
      lookupIndex, List.replicate]

/-- C5, amended: for every session of the table, every slot that the follow-up
table has and every `followupIndex` at which that slot holds no follow-up question,
a submission with `isFollowup = true` is refused and changes nothing (no record
appended, follow-ups as before): the reply is `Invalid question`, unless more than
30 minutes have elapsed and the answer is empty, where it is `Time up`. -/
theorem followup_without_question (srv : Server) (now : Int) (req : AnswerRequest)
    (reply : Option RawEvaluation) (s : Session) (slot : Followups)
    (hg : srv.sessions.get req.sessionId = some s)
    (hf : req.isFollowup = true)
    (hslot : slotFollowups s req.questionId = some slot)
    (hnone : req.followupIndex.bind (fun k => slot.item k) = none) :
    (¬ (((now - s.startTime : ℤ) : ℚ) / 60000 > 30 ∧ truthy req.answer = false) →
      answer srv now req reply = (srv, .error "Invalid question")) ∧
    ((((now - s.startTime : ℤ) : ℚ) / 60000 > 30 ∧ truthy req.answer = false) →
      answer srv now req reply = (srv, .error "Time up")) := by
  have hsrv : ({ srv with sessions := srv.sessions.put req.sessionId s } : Server) = srv := by
    rw [Store.put_get_self _ _ _ hg]
  have hres : resolveQuestion s req = some none := by
    unfold resolveQuestion
    rw [if_pos hf, hslot]
    cases hk : req.followupIndex with
    | none => rfl
    | some k =>
      rw [hk] at hnone
      simp only [Option.some_bind] at hnone
      simp [hnone]
  rw [answer_of_get srv now req reply s hg]
  constructor
  · intro ht
    have : answerSession s now req reply = (s, .error "Invalid question") := by
      unfold answerSession
      rw [if_neg ht, hres]
      simp [truthy]
    rw [this, hsrv]
  · intro ht
    have : answerSession s now req reply = (s, .error "Time up") := by
      unfold answerSession
      rw [if_pos ht]
    rw [this, hsrv]

/-- A follow-up submission to a slot that the follow-up table does not have throws
at line 112, before the validity test of line 116, unless the time guard of line 109
answers first; the session is unchanged. -/
theorem followup_outside_table_throws (srv : Server) (now : Int) (req : AnswerRequest)
    (reply : Option RawEvaluation) (s : Session)
    (hg : srv.sessions.get req.sessionId = some s)
    (hf : req.isFollowup = true)
    (hslot : slotFollowups s req.questionId = none)
    (ht : ¬ (((now - s.startTime : ℤ) : ℚ) / 60000 > 30 ∧ truthy req.answer = false)) :
    answer srv now req reply = (srv, .thrown) := by
  have hsrv : ({ srv with sessions := srv.sessions.put req.sessionId s } : Server) = srv := by
    rw [Store.put_get_self _ _ _ hg]
  have hres : resolveQuestion s req = none := by
    unfold resolveQuestion
    rw [if_pos hf, hslot]
  have : answerSession s now req reply = (s, .thrown) := by
    unfold answerSession
    rw [if_neg ht, hres]
  rw [answer_of_get srv now req reply s hg, this, hsrv]

/-- Witness of C5 (amended): position 5 of slot 0 of session `s1`, which holds two
follow-up questions, at one second and with a non-empty answer. -/
theorem followup_without_question_witness :
    afterFirstAnswer.sessions.get (followupRequest 0 5).sessionId =
      (afterFirstAnswer.sessions.get "s1") ∧
    answer afterFirstAnswer 1000 (followupRequest 0 5) none =
      (afterFirstAnswer, .error "Invalid question") := by
  refine ⟨rfl, ?_⟩
  refine (followup_without_question afterFirstAnswer 1000 (followupRequest 0 5) none _
    (.array [.str "F1", .str "F2"]) afterFirstAnswer_get rfl ?_ ?_).1 ?_
  · simp [installedSession, slotFollowups, Followups.item, lookupIndex, followupRequest]
  · simp [followupRequest, Followups.item, lookupIndex]
  · simp [followupRequest, truthy, JVal.truthy]

/-- C9: an accepted submission with `isFollowup = true` leaves `followups`
unchanged in every slot whatever follow-up list the evaluator returned, appends
exactly one record, with `isFollowup = true` and the request's slot and
`followupIndex`, at the end of `responses`, and returns an empty follow-up list. -/
theorem followup_answer_frame (srv srv' : Server) (now : Int) (req : AnswerRequest)
    (reply : Option RawEvaluation) (body : Followups)
    (hf : req.isFollowup = true)
    (h : answer srv now req reply = (srv', .ok body)) :
    ∃ (s s' : Session) (r : ResponseRecord),
      srv.sessions.get req.sessionId = some s ∧
      srv'.sessions.get req.sessionId = some s' ∧
      s'.followups = s.followups ∧
      s'.responses = s.responses ++ [r] ∧
      r.isFollowup = true ∧ r.followupIndex = req.followupIndex ∧
      r.questionId = req.questionId ∧
      body = .array [] := by
  obtain ⟨s, hg, hs, hg', -, -⟩ := answer_inv srv srv' now req reply _ h (by simp)
  obtain ⟨r, hr, hq, -, hif, hidx, -⟩ := answerSession_ok s _ now req reply body hs
  obtain ⟨hfu, -⟩ := answerSession_followups s _ now req reply body hs
  exact ⟨s, _, r, hg, hg', (hfu hf).1, hr, by rw [hif, hf], hidx hf, hq, (hfu hf).2⟩

/-- Witness of C9: session `s1` answers the first follow-up question of slot 0 and
the model returns a follow-up list for that answer. -/
theorem followup_answer_frame_witness :
    answer afterFirstAnswer 3000 (followupRequest 0 0)
        (some (sampleReply (.num 9) [.str "second level"])) =
      ((answer afterFirstAnswer 3000 (followupRequest 0 0)
        (some (sampleReply (.num 9) [.str "second level"]))).1, .ok (.array [])) ∧
    ∃ (s s' : Session) (r : ResponseRecord),
      afterFirstAnswer.sessions.get (followupRequest 0 0).sessionId = some s ∧
      (answer afterFirstAnswer 3000 (followupRequest 0 0)
        (some (sampleReply (.num 9) [.str "second level"]))).1.sessions.get
          (followupRequest 0 0).sessionId = some s' ∧
      s'.followups = s.followups ∧
      s'.responses = s.responses ++ [r] ∧
      r.isFollowup = true ∧ r.followupIndex = (followupRequest 0 0).followupIndex ∧
      r.questionId = (followupRequest 0 0).questionId ∧
      Followups.array [] = .array [] := by
  have h : answer afterFirstAnswer 3000 (followupRequest 0 0)
        (some (sampleReply (.num 9) [.str "second level"])) =
      ((answer afterFirstAnswer 3000 (followupRequest 0 0)
        (some (sampleReply (.num 9) [.str "second level"]))).1, .ok (.array [])) := by
    rw [afterFirstAnswer_eq]
    simp [answer, installedSession, Store.get, Store.put, answerSession, sampleSession, newSession,
      followupRequest, truthy, JVal.truthy, resolveQuestion, slotFollowups, Followups.item, lookupIndex]
  exact ⟨h, followup_answer_frame _ _ _ _ _ _ rfl h⟩

/-- The record of an accepted follow-up answer stores the normalised evaluation as
it is: the `delete` of line 136 is not on this path, so the follow-up list that the
evaluator returned for a follow-up answer stays in the stored evaluation. -/
theorem followup_answer_stores_evaluation (s s' : Session) (now : Int)
    (req : AnswerRequest) (reply : Option RawEvaluation) (body : Followups)
    (hf : req.isFollowup = true)
    (h : answerSession s now req reply = (s', .ok body)) :
    ∃ r : ResponseRecord, s'.responses = s.responses ++ [r] ∧
      r.evaluation = normalizeEvaluation reply ∧
      r.evaluation.followups = (normalizeEvaluation reply).followups := by
  obtain ⟨r, hr, -, -, -, -, -, -, -, -, hev, -⟩ := answerSession_ok s s' now req reply body h
  have he := hev (Or.inr hf)
  exact ⟨r, hr, he, by rw [he]⟩

/-! ## Session life cycle -/

/-- The table after `/answer`: the addressed session, when present, is what
`answerSession` made of it; every other entry is as before. -/
theorem answer_get (srv : Server) (now : Int) (req : AnswerRequest)
    (reply : Option RawEvaluation) (id : String) :
    (answer srv now req reply).1.sessions.get id =
      if id = req.sessionId then
        (srv.sessions.get id).map (fun s => (answerSession s now req reply).1)
      else srv.sessions.get id := by
  cases hg : srv.sessions.get req.sessionId with
  | none =>
    rw [answer_no_session srv now req reply hg]
    by_cases hid : id = req.sessionId
    · rw [if_pos hid, hid, hg]; rfl
    · rw [if_neg hid]
  | some s =>
    rw [answer_of_get srv now req reply s hg]
    by_cases hid : id = req.sessionId
    · rw [if_pos hid, hid, hg]
      exact Store.get_put_same _ _ _
    · rw [if_neg hid]
      exact Store.get_put_other _ _ _ _ hid

theorem answer_transcripts (srv : Server) (now : Int) (req : AnswerRequest)
    (reply : Option RawEvaluation) :
    (answer srv now req reply).1.transcripts = srv.transcripts := by
  unfold answer
  split <;> rfl

/-- The four outcomes of `answerSession`; only an accepted submission changes the
session. -/
theorem answerSession_cases (s : Session) (now : Int) (req : AnswerRequest)
    (reply : Option RawEvaluation) :
    answerSession s now req reply = (s, .error "Time up") ∨
    answerSession s now req reply = (s, .thrown) ∨
    answerSession s now req reply = (s, .error "Invalid question") ∨
    ∃ body, answerSession s now req reply = ((answerSession s now req reply).1, .ok body) := by
  by_cases ht : ((now - s.startTime : ℤ) : ℚ) / 60000 > 30 ∧ truthy req.answer = false
  · left
    unfold answerSession
    rw [if_pos ht]
  · cases hq : resolveQuestion s req with
    | none =>
      right; left
      unfold answerSession
      rw [if_neg ht, hq]
    | some question =>
      by_cases htr : truthy question = false
      · right; right; left
        unfold answerSession
        rw [if_neg ht, hq]
        simp only [htr, if_true]
      · right; right; right
        unfold answerSession
        rw [if_neg ht, hq]
        simp only [htr, if_false]
        cases req.isFollowup with
        | true => exact ⟨_, rfl⟩
        | false =>
          cases hasFollowups (normalizeEvaluation reply) with
          | true => exact ⟨_, rfl⟩
          | false => exact ⟨_, rfl⟩

/-- Whatever its outcome, `answerSession` keeps the questions, and keeps the number
of follow-up slots when there are as many slots as questions. -/
theorem answerSession_shape (s : Session) (now : Int) (req : AnswerRequest)
    (reply : Option RawEvaluation) :
    (answerSession s now req reply).1.questions = s.questions ∧
    (s.followups.length = s.questions.length →
      (answerSession s now req reply).1.followups.length = s.followups.length) := by
  rcases answerSession_cases s now req reply with h | h | h | ⟨body, hs⟩
  · rw [h]; exact ⟨rfl, fun _ => rfl⟩
  · rw [h]; exact ⟨rfl, fun _ => rfl⟩
  · rw [h]; exact ⟨rfl, fun _ => rfl⟩
  · obtain ⟨r, -, -, -, -, -, -, -, -, -, -, hq, -⟩ := answerSession_ok s _ now req reply body hs
    refine ⟨hq, fun hlen => ?_⟩
    obtain ⟨hfu, hmain⟩ := answerSession_followups s _ now req reply body hs
    cases hf : req.isFollowup with
    | true => rw [(hfu hf).1]
    | false =>
      obtain ⟨-, hlt, hyes, hno⟩ := hmain hf
      cases hx : hasFollowups (normalizeEvaluation reply) with
      | false => rw [(hno hx).1]
      | true =>
        rw [(hyes hx).1]
        exact assignIndex_length _ _ _ (by rw [hlen]; exact hlt)

theorem generateQuestions_length (reply : JVal) : (generateQuestions reply).length = 10 := by
  cases reply with
  | arr xs =>
    simp only [generateQuestions]
    by_cases h : xs.length ≠ 10
    · rw [if_pos h]; rfl
    · rw [if_neg h]
      exact not_not.1 h
  | _ => rfl

theorem runAnswers_shape (calls : List (Int × AnswerRequest × Option RawEvaluation)) :
    ∀ (srv : Server) (id : String) (s : Session), srv.sessions.get id = some s →
      s.questions.length = 10 → s.followups.length = 10 →
      ∃ s', (runAnswers srv calls).sessions.get id = some s' ∧
        s'.questions = s.questions ∧ s'.followups.length = 10 := by
  induction calls with
  | nil => intro srv id s hg _ hf; exact ⟨s, hg, rfl, hf⟩
  | cons c rest ih =>
    intro srv id s hg hq hf
    unfold runAnswers
    by_cases hid : id = c.2.1.sessionId
    · have hsh := answerSession_shape s c.1 c.2.1 c.2.2
      have hg' : (answer srv c.1 c.2.1 c.2.2).1.sessions.get id =
          some (answerSession s c.1 c.2.1 c.2.2).1 := by
        rw [answer_get, if_pos hid, hg]; rfl
      obtain ⟨s', h1, h2, h3⟩ := ih _ id _ hg' (by rw [hsh.1]; exact hq)
        (by rw [hsh.2 (by rw [hf, hq])]; exact hf)
      exact ⟨s', h1, by rw [h2, hsh.1], h3⟩
    · have hg' : (answer srv c.1 c.2.1 c.2.2).1.sessions.get id = some s := by
        rw [answer_get, if_neg hid, hg]
      exact ih _ id s hg' hq hf

/-- C7: for every truthy name and topic and every result of the model call,
`/start-session` stores a session whose `questions` has length 10 (the model's
list when the result is an array of length 10, the built-in list otherwise) and
whose follow-up table has 10 slots, and returns those questions; after any
sequence of `/answer` requests the session has the same questions and 10
follow-up slots. -/
theorem start_session_ten_questions (srv : Server) (newId : String) (now : Int)
    (name topic : JVal) (reply : JVal)
    (hn : name.truthy = true) (ht : topic.truthy = true) :
    ∃ s : Session,
      startSession srv newId now (some name) (some topic) reply =
        ((startSession srv newId now (some name) (some topic) reply).1,
          .ok (newId, s.questions)) ∧
      (startSession srv newId now (some name) (some topic) reply).1.sessions.get newId =
        some s ∧
      s.questions.length = 10 ∧ s.followups.length = 10 ∧
      (∀ xs, reply = .arr xs → xs.length = 10 → s.questions = xs) ∧
      ((∀ xs, reply = .arr xs → xs.length ≠ 10) → s.questions = fallbackQuestions) ∧
      ∀ calls : List (Int × AnswerRequest × Option RawEvaluation),
        ∃ s', (runAnswers (startSession srv newId now (some name) (some topic) reply).1
            calls).sessions.get newId = some s' ∧
          s'.questions = s.questions ∧ s'.questions.length = 10 ∧ s'.followups.length = 10 := by
  have hstart : startSession srv newId now (some name) (some topic) reply =
      (({ sessions := srv.sessions.put newId
            (newSession name topic (generateQuestions reply) now),
          transcripts := srv.transcripts } : Server),
        .ok (newId, generateQuestions reply)) := by
    simp [startSession, hn, ht]
  have hlen := generateQuestions_length reply
  have hget : (startSession srv newId now (some name) (some topic) reply).1.sessions.get newId =
      some (newSession name topic (generateQuestions reply) now) := by
    rw [hstart]
    exact Store.get_put_same _ _ _
  refine ⟨newSession name topic (generateQuestions reply) now, ?_, hget, hlen, ?_, ?_, ?_, ?_⟩
  · rw [hstart]; rfl
  · simp [newSession]
  · intro xs hx hl
    subst hx
    simp [newSession, generateQuestions, hl]
  · intro hall
    cases reply with
    | arr xs => simp [newSession, generateQuestions, hall xs rfl]
    | _ => rfl
  · intro calls
    obtain ⟨s', h1, h2, h3⟩ := runAnswers_shape calls _ newId _ hget hlen
      (by simp [newSession])
    exact ⟨s', h1, h2, by rw [h2]; exact hlen, h3⟩

/-- Witness of C7: the model call fails (`null`) for the candidate Asha. -/
theorem start_session_ten_questions_witness :
    (JVal.str "Asha").truthy = true ∧ (JVal.str "Finance").truthy = true ∧
    ∃ s : Session,
      startSession sampleServer "s2" 5 (some (.str "Asha")) (some (.str "Finance")) .null =
        ((startSession sampleServer "s2" 5 (some (.str "Asha")) (some (.str "Finance"))
          .null).1, .ok ("s2", s.questions)) ∧
      (startSession sampleServer "s2" 5 (some (.str "Asha")) (some (.str "Finance"))
        .null).1.sessions.get "s2" = some s ∧
      s.questions.length = 10 ∧ s.followups.length = 10 ∧
      (∀ xs, JVal.null = .arr xs → xs.length = 10 → s.questions = xs) ∧
      ((∀ xs, JVal.null = .arr xs → xs.length ≠ 10) → s.questions = fallbackQuestions) ∧
      ∀ calls : List (Int × AnswerRequest × Option RawEvaluation),
        ∃ s', (runAnswers (startSession sampleServer "s2" 5 (some (.str "Asha"))
            (some (.str "Finance")) .null).1 calls).sessions.get "s2" = some s' ∧
          s'.questions = s.questions ∧ s'.questions.length = 10 ∧ s'.followups.length = 10 :=
  ⟨by simp [JVal.truthy], by simp [JVal.truthy],
    start_session_ten_questions sampleServer "s2" 5 (.str "Asha") (.str "Finance") .null
      (by simp [JVal.truthy]) (by simp [JVal.truthy])⟩

/-- C6: a successful `/summary` for a session id removes that id from the table
and leaves every other session untouched, so a second `/summary` and every
`/answer` with the same id get the reply `No session` and change nothing. -/
theorem summary_removes_session (srv srv' : Server) (sessionId : String)
    (h : summary srv sessionId = (srv', .ok ())) :
    (∃ s, srv.sessions.get sessionId = some s) ∧
    srv'.sessions.get sessionId = none ∧
    (∀ id, id ≠ sessionId → srv'.sessions.get id = srv.sessions.get id) ∧
    summary srv' sessionId = (srv', .error "No session") ∧
    ∀ (now : Int) (req : AnswerRequest) (reply : Option RawEvaluation),
      req.sessionId = sessionId → answer srv' now req reply = (srv', .error "No session") := by
  unfold summary at h
  cases hg : srv.sessions.get sessionId with
  | none => simp [hg] at h
  | some s =>
    simp only [hg] at h
    cases ha : allQuestions s with
    | none => simp [ha] at h
    | some qs =>
      simp only [ha] at h
      cases hb : buildTranscript s with
      | none => simp [hb] at h
      | some t =>
        simp only [hb, Prod.mk.injEq] at h
        obtain ⟨rfl, -⟩ := h
        have hnone : (srv.sessions.delete sessionId).get sessionId = none :=
          Store.get_delete_same _ _
        refine ⟨⟨s, rfl⟩, hnone, fun id hid => Store.get_delete_other _ _ _ hid, ?_, ?_⟩
        · simp [summary, hnone]
        · intro now req reply hreq
          exact answer_no_session _ now req reply (by rw [hreq]; exact hnone)

/-- Witness of C6: the session `s1` ends right after it started. -/
theorem summary_removes_session_witness :
    summary sampleServer "s1" =
      ({ sessions := [], transcripts := [emptyTranscript sampleSession] }, .ok ()) ∧
    ((∃ s, sampleServer.sessions.get "s1" = some s) ∧
    ({ sessions := [], transcripts := [emptyTranscript sampleSession] } : Server).sessions.get
      "s1" = none ∧
    (∀ id, id ≠ "s1" →
      ({ sessions := [], transcripts := [emptyTranscript sampleSession] } : Server).sessions.get
        id = sampleServer.sessions.get id) ∧
    summary { sessions := [], transcripts := [emptyTranscript sampleSession] } "s1" =
      ({ sessions := [], transcripts := [emptyTranscript sampleSession] },
        .error "No session") ∧
    ∀ (now : Int) (req : AnswerRequest) (reply : Option RawEvaluation),
      req.sessionId = "s1" →
      answer { sessions := [], transcripts := [emptyTranscript sampleSession] } now req reply =
        ({ sessions := [], transcripts := [emptyTranscript sampleSession] },
          .error "No session")) := by
  have h : summary sampleServer "s1" =
      ({ sessions := [], transcripts := [emptyTranscript sampleSession] }, .ok ()) := by
    simp [summary, sampleServer, Store.get, Store.delete, buildTranscript, sampleSession,
      newSession, sortResponses, fillTranscript, allQuestions, pushFollowups, List.replicate]
  exact ⟨h, summary_removes_session _ _ _ h⟩

/-! ## The reachable-state invariant -/

theorem lookupIndex_nil {α : Type} (k : Int) : lookupIndex ([] : List α) k = none := by
  unfold lookupIndex
  split <;> simp

theorem item_none_of_empty (v : Followups) (h : v.nonEmpty = false) (k : Int) :
    v.item k = none := by
  cases v with
  | array xs =>
    cases xs with
    | nil => exact lookupIndex_nil k
    | cons a t => simp [Followups.nonEmpty] at h
  | text s =>
    have hs : s = "" := by simpa [Followups.nonEmpty] using h
    subst hs
    simp [Followups.item, lookupIndex_nil]

theorem resolveQuestion_followup (s : Session) (req : AnswerRequest) (q : Option JVal)
    (hf : req.isFollowup = true) (hq : resolveQuestion s req = some q)
    (htr : truthy q = true) :
    ∃ slot, slotFollowups s req.questionId = some slot ∧ slot.nonEmpty = true := by
  unfold resolveQuestion at hq
  rw [if_pos hf] at hq
  cases hslot : slotFollowups s req.questionId with
  | none => rw [hslot] at hq; cases hq
  | some slot =>
    refine ⟨slot, rfl, ?_⟩
    rw [hslot] at hq
    simp only [Option.some.injEq] at hq
    cases hne : slot.nonEmpty with
    | true => rfl
    | false =>
      exfalso
      cases hk : req.followupIndex with
      | none => rw [hk] at hq; subst hq; simp [truthy] at htr
      | some k =>
        rw [hk] at hq
        simp only at hq
        rw [item_none_of_empty slot hne k] at hq
        subst hq
        simp [truthy] at htr

theorem slotFollowups_after_install (s s' : Session) (q : Int) (h0 : 0 ≤ q) (l : Followups)
    (hfo : s'.followups = assignIndex s.followups q.toNat l) (j : Int) :
    slotFollowups s' j = if j = q then some l else slotFollowups s j := by
  unfold slotFollowups
  rw [hfo]
  by_cases hj : j = q
  · rw [if_pos hj, hj, lookupIndex_assign_toNat _ _ h0]; rfl
  · rw [if_neg hj]
    exact lookupIndex_assign_toNat_other _ _ _ h0 _ hj

theorem newSession_slot (name topic : JVal) (questions : List JVal) (now : Int) (i : Int)
    (v : Followups) (h : slotFollowups (newSession name topic questions now) i = some v) :
    v = .array [] := by
  unfold slotFollowups lookupIndex at h
  simp only [newSession] at h
  split at h
  · cases h
  · cases hx : (List.replicate 10 (some (Followups.array [])))[i.toNat]? with
    | none => rw [hx] at h; cases h
    | some w =>
      rw [hx] at h
      have hw : w = some (.array []) := by
        rw [List.getElem?_replicate] at hx
        split at hx
        · exact (Option.some.inj hx).symm
        · cases hx
      subst hw
      exact (Option.some.inj h).symm

theorem newSession_inv (name topic : JVal) (questions : List JVal) (now : Int) :
    SessionInv (newSession name topic questions now) := by
  refine ⟨?_, ?_, ?_, ?_⟩
  · intro i v hv hne
    rw [newSession_slot name topic questions now i v hv] at hne
    simp [Followups.nonEmpty] at hne
  · intro n r hr
    simp [newSession] at hr
  · intro r hr
    simp [newSession] at hr
  · intro r hr
    simp [newSession] at hr

theorem answerSession_inv (s : Session) (now : Int) (req : AnswerRequest)
    (reply : Option RawEvaluation) (hinv : SessionInv s) :
    SessionInv (answerSession s now req reply).1 := by
  rcases answerSession_cases s now req reply with h | h | h | ⟨body, hs⟩
  · rw [h]; exact hinv
  · rw [h]; exact hinv
  · rw [h]; exact hinv
  · obtain ⟨r, hr, hrq, -, hrf, -, hsc, -, -, -, -, -, -, -, -, qv, hqv, htr⟩ :=
      answerSession_ok s _ now req reply body hs
    obtain ⟨hfu, hmain⟩ := answerSession_followups s _ now req reply body hs
    -- the follow-up table after the request
    have hslots : ∀ j, slotFollowups (answerSession s now req reply).1 j = slotFollowups s j ∨
        (j = req.questionId ∧ req.isFollowup = false) := by
      intro j
      cases hf : req.isFollowup with
      | true => left; unfold slotFollowups; rw [(hfu hf).1]
      | false =>
        obtain ⟨h0, -, hyes, hno⟩ := hmain hf
        cases hx : hasFollowups (normalizeEvaluation reply) with
        | false => left; unfold slotFollowups; rw [(hno hx).1]
        | true =>
          rw [slotFollowups_after_install s _ _ h0 _ (hyes hx).1 j]
          by_cases hj : j = req.questionId
          · right; exact ⟨hj, rfl⟩
          · left; rw [if_neg hj]
    have hdef : ∀ j slot, slotFollowups s j = some slot →
        ∃ slot', slotFollowups (answerSession s now req reply).1 j = some slot' := by
      intro j slot hj
      cases hf : req.isFollowup with
      | true => exact ⟨slot, by unfold slotFollowups at hj ⊢; rw [(hfu hf).1]; exact hj⟩
      | false =>
        obtain ⟨h0, -, hyes, hno⟩ := hmain hf
        cases hx : hasFollowups (normalizeEvaluation reply) with
        | false => exact ⟨slot, by unfold slotFollowups at hj ⊢; rw [(hno hx).1]; exact hj⟩
        | true =>
          rw [slotFollowups_after_install s _ _ h0 _ (hyes hx).1 j]
          by_cases hjq : j = req.questionId
          · rw [if_pos hjq]; exact ⟨_, rfl⟩
          · rw [if_neg hjq]; exact ⟨slot, hj⟩
    refine ⟨?_, ?_, ?_, ?_⟩
    · intro i l hl hne
      rcases hslots i with hsame | ⟨hi, hf⟩
      · rw [hsame] at hl
        obtain ⟨m, hm, hmq, hmf⟩ := hinv.installed i l hl hne
        exact ⟨m, by rw [hr]; exact List.mem_append_left _ hm, hmq, hmf⟩
      · exact ⟨r, by rw [hr]; simp, by rw [hrq, hi], by rw [hrf, hf]⟩
    · intro n r' hn hr'f
      rw [hr] at hn ⊢
      by_cases hlt : n < s.responses.length
      · rw [List.getElem?_append_left hlt] at hn
        obtain ⟨j, m, hj, hjm, hmq, hmf⟩ := hinv.preceded n r' hn hr'f
        exact ⟨j, m, hj, by rw [List.getElem?_append_left (by omega)]; exact hjm, hmq, hmf⟩
      · have hlen : (s.responses ++ [r]).length = s.responses.length + 1 := by simp
        have hn' : n < (s.responses ++ [r]).length := (List.getElem?_eq_some_iff.1 hn).1
        have hneq : n = s.responses.length := by omega
        subst hneq
        rw [List.getElem?_append_right (le_refl _)] at hn
        simp only [Nat.sub_self, List.getElem?_cons_zero, Option.some.injEq] at hn
        subst hn
        have hf : req.isFollowup = true := by rw [← hrf]; exact hr'f
        obtain ⟨slot, hslot, hne⟩ := resolveQuestion_followup s req qv hf hqv htr
        obtain ⟨m, hm, hmq, hmf⟩ := hinv.installed req.questionId slot hslot hne
        obtain ⟨j, hj, hjm⟩ := List.getElem_of_mem hm
        refine ⟨j, m, hj, ?_, by rw [hmq, hrq], hmf⟩
        rw [List.getElem?_append_left hj, List.getElem?_eq_getElem hj, hjm]
    · intro r' hr'mem hr'f
      rw [hr] at hr'mem
      rcases List.mem_append.1 hr'mem with hold | hnew
      · obtain ⟨slot, hslot⟩ := hinv.slots r' hold hr'f
        exact hdef _ slot hslot
      · have hrr : r' = r := by simpa using hnew
        subst hrr
        have hf : req.isFollowup = true := by rw [← hrf]; exact hr'f
        obtain ⟨slot, hslot, -⟩ := resolveQuestion_followup s req qv hf hqv htr
        rw [hrq]
        exact hdef _ slot hslot
    · intro r' hr'mem
      rw [hr] at hr'mem
      rcases List.mem_append.1 hr'mem with hold | hnew
      · exact hinv.scores r' hold
      · have hrr : r' = r := by simpa using hnew
        subst hrr
        rw [hsc]
        exact ⟨(normalizeEvaluation_score reply).1, (normalizeEvaluation_score reply).2.1⟩

theorem questionText_some (s : Session) (r : ResponseRecord)
    (h : r.isFollowup = true → ∃ slot, slotFollowups s r.questionId = some slot) :
    ∃ q, questionText s r = some q := by
  unfold questionText
  cases hf : r.isFollowup with
  | false => exact ⟨lookupIndex s.questions r.questionId, by simp⟩
  | true =>
    obtain ⟨slot, hslot⟩ := h hf
    rw [if_pos rfl, hslot]
    exact ⟨_, rfl⟩

theorem fillTranscript_some (s : Session) (rs : List ResponseRecord)
    (h : ∀ r ∈ rs, r.isFollowup = true → ∃ slot, slotFollowups s r.questionId = some slot) :
    ∀ t, ∃ t', fillTranscript s rs t = some t' := by
  induction rs with
  | nil => intro t; exact ⟨t, rfl⟩
  | cons r rest ih =>
    intro t
    obtain ⟨q, hq⟩ := questionText_some s r (h r (List.mem_cons_self r rest))
    unfold fillTranscript
    rw [hq]
    exact ih (fun r' hr' => h r' (List.mem_cons_of_mem r hr')) _

theorem mem_sortResponses (qa : List ResponseRecord) (r : ResponseRecord) :
    r ∈ sortResponses qa ↔ r ∈ qa :=
  (List.perm_insertionSort _ qa).mem_iff

/-- The loop of `/summary` does not throw on a session whose follow-up records all
point at a slot of the follow-up table. -/
theorem buildTranscript_some (s : Session) (h : FollowupSlotsExist s) :
    ∃ t, buildTranscript s = some t := by
  unfold buildTranscript
  exact fillTranscript_some s _
    (fun r hr => h r ((mem_sortResponses s.responses r).1 hr)) _

theorem reachable_sessions_inv (srv : Server) (h : Reachable srv) :
    ∀ (id : String) (s : Session), srv.sessions.get id = some s → SessionInv s := by
  induction h with
  | init transcripts =>
    intro id s hg
    simp [Store.get] at hg
  | start srv newId now name topic reply _ ih =>
    intro id s hg
    unfold startSession at hg
    split at hg
    · next n t =>
      split at hg
      · exact ih id s hg
      · by_cases hid : id = newId
        · subst hid
          simp only [Store.get_put_same, Option.some.injEq] at hg
          subst hg
          exact newSession_inv _ _ _ _
        · simp only [Store.get_put_other _ _ _ _ hid] at hg
          exact ih id s hg
    · exact ih id s hg
  | answer srv now req reply _ ih =>
    intro id s hg
    rw [answer_get] at hg
    by_cases hid : id = req.sessionId
    · rw [if_pos hid] at hg
      cases hold : srv.sessions.get id with
      | none => rw [hold] at hg; cases hg
      | some s0 =>
        rw [hold] at hg
        simp only [Option.map_some', Option.some.injEq] at hg
        subst hg
        exact answerSession_inv s0 now req reply (ih id s0 hold)
    · rw [if_neg hid] at hg
      exact ih id s hg
  | summary srv sessionId _ ih =>
    intro id s hg
    unfold summary at hg
    cases hold : srv.sessions.get sessionId with
    | none =>
      simp only [hold] at hg
      exact ih id s hg
    | some s0 =>
      simp only [hold] at hg
      cases ha : allQuestions s0 with
      | none =>
        simp only [ha] at hg
        exact ih id s hg
      | some qs =>
        obtain ⟨t, ht⟩ := buildTranscript_some s0 (ih sessionId s0 hold).slots
        simp only [ha, ht] at hg
        by_cases hid : id = sessionId
        · subst hid
          rw [Store.get_delete_same] at hg
          cases hg
        · rw [Store.get_delete_other _ _ _ hid] at hg
          exact ih id s hg

/-- C10: in every state the server reaches from an empty session table through
`/start-session`, `/answer` and `/summary`, every session satisfies: whenever
`followups[i]` is non-empty (an array with an element, or a string with a
character), `responses` contains a main record of slot `i`; and
every follow-up record in `responses` is preceded, in arrival order, by a main
record of the same slot. -/
theorem followups_reachable_after_main (srv : Server) (h : Reachable srv) (id : String)
    (s : Session) (hg : srv.sessions.get id = some s) :
    (∀ (i : Int) (v : Followups), slotFollowups s i = some v → v.nonEmpty = true →
      ∃ m ∈ s.responses, m.questionId = i ∧ m.isFollowup = false) ∧
    (∀ (n : Nat) (r : ResponseRecord), s.responses[n]? = some r → r.isFollowup = true →
      ∃ (j : Nat) (m : ResponseRecord), j < n ∧ s.responses[j]? = some m ∧
        m.questionId = r.questionId ∧ m.isFollowup = false) :=
  ⟨(reachable_sessions_inv srv h id s hg).installed,
    (reachable_sessions_inv srv h id s hg).preceded⟩

theorem sampleServer_start :
    sampleServer = (startSession { sessions := [], transcripts := [] } "s1" 0
      (some (.str "Asha")) (some (.str "Finance")) .null).1 := by
  simp [sampleServer, startSession, JVal.truthy, Store.put, sampleSession, generateQuestions]

theorem afterFirstAnswer_reachable : Reachable afterFirstAnswer := by
  unfold afterFirstAnswer
  apply Reachable.answer
  rw [sampleServer_start]
  exact Reachable.start _ _ _ _ _ _ (Reachable.init [])

/-- Witness of C10: the session `s1` after its first main answer installed two
follow-up questions in slot 0. -/
theorem followups_reachable_after_main_witness :
    Reachable afterFirstAnswer ∧ afterFirstAnswer.sessions.get "s1" = some installedSession ∧
    (∀ (i : Int) (v : Followups), slotFollowups installedSession i = some v →
      v.nonEmpty = true →
      ∃ m ∈ installedSession.responses, m.questionId = i ∧ m.isFollowup = false) ∧
    (∀ (n : Nat) (r : ResponseRecord), installedSession.responses[n]? = some r →
      r.isFollowup = true →
      ∃ (j : Nat) (m : ResponseRecord), j < n ∧ installedSession.responses[j]? = some m ∧
        m.questionId = r.questionId ∧ m.isFollowup = false) :=
  ⟨afterFirstAnswer_reachable, afterFirstAnswer_get,
    followups_reachable_after_main afterFirstAnswer afterFirstAnswer_reachable "s1"
      installedSession afterFirstAnswer_get⟩

/-! ## Decimal rendering and transcript keys -/

/-- A decimal digit character is a digit and its code is 48 more than its value. -/
theorem digitChar_isDigit (m : Nat) (h : m < 10) :
    (Nat.digitChar m).toNat - 48 = m ∧ (Nat.digitChar m).isDigit = true := by
  interval_cases m <;> exact ⟨rfl, rfl⟩

theorem toDigitsCore_read (fuel : Nat) :
    ∀ (n : Nat) (ds : List Char), n < fuel →
      (Nat.toDigitsCore 10 fuel n ds).foldl (fun a c => 10 * a + (c.toNat - 48)) 0 =
        ds.foldl (fun a c => 10 * a + (c.toNat - 48)) n := by
  induction fuel with
  | zero => intro n ds h; omega
  | succ fuel ih =>
    intro n ds h
    have hd := (digitChar_isDigit (n % 10) (Nat.mod_lt _ (by norm_num))).1
    unfold Nat.toDigitsCore
    by_cases h0 : n / 10 = 0
    · simp only [h0, if_true, List.foldl_cons, Nat.mul_zero, Nat.zero_add, hd]
      have : n % 10 = n := Nat.mod_eq_of_lt (by omega)
      rw [this]
    · simp only [h0, if_false]
      rw [ih (n / 10) _ (by omega)]
      simp only [List.foldl_cons, hd]
      have : 10 * (n / 10) + n % 10 = n := Nat.div_add_mod n 10
      rw [this]

theorem toDigitsCore_chars (fuel : Nat) :
    ∀ (n : Nat) (ds : List Char) (c : Char), c ∈ Nat.toDigitsCore 10 fuel n ds →
      c ∈ ds ∨ c.isDigit = true := by
  induction fuel with
  | zero => intro n ds c h; left; simpa [Nat.toDigitsCore] using h
  | succ fuel ih =>
    intro n ds c h
    have hd := (digitChar_isDigit (n % 10) (Nat.mod_lt _ (by norm_num))).2
    unfold Nat.toDigitsCore at h
    by_cases h0 : n / 10 = 0
    · simp only [h0, if_true, List.mem_cons] at h
      rcases h with h | h
      · right; rw [h]; exact hd
      · left; exact h
    · simp only [h0, if_false] at h
      rcases ih _ _ c h with h | h
      · rcases List.mem_cons.1 h with h | h
        · right; rw [h]; exact hd
        · left; exact h
      · right; exact h

theorem natRepr_injective (a b : Nat) (h : Nat.repr a = Nat.repr b) : a = b := by
  have hd : Nat.toDigits 10 a = Nat.toDigits 10 b := by
    have := congrArg String.data h
    simpa [Nat.repr, List.asString] using this
  have ha := toDigitsCore_read (a + 1) a [] (by omega)
  have hb := toDigitsCore_read (b + 1) b [] (by omega)
  unfold Nat.toDigits at hd
  rw [hd, hb] at ha
  simpa using ha.symm

theorem natRepr_chars (a : Nat) (c : Char) (h : c ∈ (Nat.repr a).data) : c.isDigit = true := by
  have h' : c ∈ Nat.toDigits 10 a := by simpa [Nat.repr, List.asString] using h
  rcases toDigitsCore_chars _ _ _ c h' with h | h
  · simp at h
  · exact h

theorem showInt_data (i : Int) :
    (showInt i).data = match i with
      | Int.ofNat m => (Nat.repr m).data
      | Int.negSucc m => '-' :: (Nat.repr (m + 1)).data := by
  cases i with
  | ofNat m => rfl
  | negSucc m => rfl

theorem showInt_chars (i : Int) (c : Char) (h : c ∈ (showInt i).data) :
    c.isDigit = true ∨ c = '-' := by
  rw [showInt_data] at h
  cases i with
  | ofNat m => left; exact natRepr_chars m c h
  | negSucc m =>
    simp only [List.mem_cons] at h
    rcases h with h | h
    · right; exact h
    · left; exact natRepr_chars _ c h

theorem showInt_injective (i j : Int) (h : showInt i = showInt j) : i = j := by
  have hd : (showInt i).data = (showInt j).data := congrArg String.data h
  rw [showInt_data, showInt_data] at hd
  cases i with
  | ofNat m =>
    cases j with
    | ofNat n =>
      simp only at hd
      rw [natRepr_injective m n (String.ext hd)]
    | negSucc n =>
      simp only at hd
      exfalso
      have : '-' ∈ (Nat.repr m).data := by rw [hd]; exact List.mem_cons_self _ _
      have := natRepr_chars m _ this
      exact absurd this (by decide)
  | negSucc m =>
    cases j with
    | ofNat n =>
      simp only at hd
      exfalso
      have : '-' ∈ (Nat.repr n).data := by rw [← hd]; exact List.mem_cons_self _ _
      have := natRepr_chars n _ this
      exact absurd this (by decide)
    | negSucc n =>
      simp only [List.cons.injEq, true_and] at hd
      have := natRepr_injective _ _ (String.ext hd)
      have hmn : m = n := by omega
      rw [hmn]

theorem split_at_dot (A : List Char) :
    ∀ (A' B B' : List Char), '.' ∉ A → '.' ∉ A' → A ++ '.' :: B = A' ++ '.' :: B' →
      A = A' ∧ B = B' := by
  induction A with
  | nil =>
    intro A' B B' _ hA' h
    cases A' with
    | nil => simpa using h
    | cons a t =>
      simp only [List.nil_append, List.cons_append, List.cons.injEq] at h
      exact absurd (h.1 ▸ List.mem_cons_self _ _) hA'
  | cons x xs ih =>
    intro A' B B' hA hA' h
    cases A' with
    | nil =>
      simp only [List.nil_append, List.cons_append, List.cons.injEq] at h
      exact absurd (h.1 ▸ List.mem_cons_self _ _) hA
    | cons a t =>
      simp only [List.cons_append, List.cons.injEq] at h
      obtain ⟨h1, h2⟩ := ih t B B' (fun hm => hA (List.mem_cons_of_mem _ hm))
        (fun hm => hA' (List.mem_cons_of_mem _ hm)) h.2
      exact ⟨by rw [h.1, h1], h2⟩

theorem showInt_no_dot (i : Int) : '.' ∉ (showInt i).data := by
  intro h
  rcases showInt_chars i _ h with h | h
  · exact absurd h (by decide)
  · exact absurd h (by decide)

theorem showInt_ne_NaN (i : Int) : (showInt i).data ≠ ['N', 'a', 'N'] := by
  intro h
  have : 'N' ∈ (showInt i).data := by rw [h]; exact List.mem_cons_self _ _
  rcases showInt_chars i _ this with h | h
  · exact absurd h (by decide)
  · exact absurd h (by decide)

theorem keySuffix_data (r : ResponseRecord) :
    (keySuffix r).data =
      if r.isFollowup then
        (showInt (r.questionId + 1)).data ++ '.' ::
          (match r.followupIndex with
           | some k => (showInt (k + 1)).data
           | none => ['N', 'a', 'N'])
      else (showInt (r.questionId + 1)).data := by
  unfold keySuffix
  cases r.isFollowup with
  | false => rfl
  | true =>
    simp only [if_true, String.data_append]
    cases r.followupIndex with
    | none => simp
    | some k => simp

/-- Two responses with the same key suffix are of the same kind, of the same slot
and, for follow-ups, of the same position. -/
theorem keySuffix_inj (r r' : ResponseRecord) (h : keySuffix r' = keySuffix r) :
    r'.isFollowup = r.isFollowup ∧ r'.questionId = r.questionId ∧
      (r.isFollowup = true → r'.followupIndex = r.followupIndex) := by
  have hd : (keySuffix r').data = (keySuffix r).data := congrArg String.data h
  rw [keySuffix_data, keySuffix_data] at hd
  cases hf : r.isFollowup with
  | false =>
    cases hf' : r'.isFollowup with
    | false =>
      simp only [hf, hf', Bool.false_eq_true, if_false] at hd
      have := showInt_injective _ _ (String.ext hd)
      exact ⟨rfl, by omega, fun hc => absurd hc (by simp)⟩
    | true =>
      simp only [hf, hf', Bool.false_eq_true, if_false, if_true] at hd
      exfalso
      apply showInt_no_dot (r.questionId + 1)
      rw [← hd]
      simp
  | true =>
    cases hf' : r'.isFollowup with
    | false =>
      simp only [hf, hf', Bool.false_eq_true, if_false, if_true] at hd
      exfalso
      apply showInt_no_dot (r'.questionId + 1)
      rw [hd]
      simp
    | true =>
      simp only [hf, hf', if_true] at hd
      obtain ⟨h1, h2⟩ := split_at_dot _ _ _ _ (showInt_no_dot _) (showInt_no_dot _) hd
      have hq := showInt_injective _ _ (String.ext h1)
      refine ⟨rfl, by omega, fun _ => ?_⟩
      cases hk : r.followupIndex with
      | none =>
        cases hk' : r'.followupIndex with
        | none => rfl
        | some k' =>
          rw [hk, hk'] at h2
          exact absurd h2 (showInt_ne_NaN _)
      | some k =>
        cases hk' : r'.followupIndex with
        | none =>
          rw [hk, hk'] at h2
          exact absurd h2.symm (showInt_ne_NaN _)
        | some k' =>
          rw [hk, hk'] at h2
          have := showInt_injective _ _ (String.ext h2)
          have hkk : k' = k := by omega
          rw [hkk]

theorem questionText_of_keySuffix (s : Session) (r r' : ResponseRecord)
    (h : keySuffix r' = keySuffix r) : questionText s r' = questionText s r := by
  obtain ⟨h1, h2, h3⟩ := keySuffix_inj r r' h
  unfold questionText
  rw [h1, h2]
  cases hf : r.isFollowup with
  | false => rfl
  | true => rw [h3 hf]

theorem questionKey_eq (r : ResponseRecord) : questionKey r = "Q" ++ keySuffix r := by
  unfold questionKey keySuffix
  cases r.isFollowup with
  | false => rfl
  | true => simp only [if_true, String.append_assoc]

theorem replaceFirst_Q (sfx : String) (c : Char) :
    replaceFirst ("Q" ++ sfx) 'Q' c = String.singleton c ++ sfx := by
  apply String.ext
  simp [replaceFirst, replaceFirstChar, String.data_append, String.singleton]

theorem append_cancel_front (p a b : String) (h : p ++ a = p ++ b) : a = b := by
  have hd := congrArg String.data h
  rw [String.data_append, String.data_append] at hd
  exact String.ext (List.append_cancel_left hd)

/-! ## The transcript -/

theorem objGet_objSet {β : Type} (m : List (String × β)) (k key : String) (v : β) :
    objGet (objSet m k v) key = if k = key then some v else objGet m key := by
  induction m with
  | nil => simp [objSet, objGet]
  | cons p rest ih =>
    obtain ⟨k0, w⟩ := p
    by_cases h0 : k0 = k
    · subst h0
      by_cases h1 : k0 = key
      · simp [objSet, objGet, h1]
      · simp [objSet, objGet, h1]
    · by_cases h1 : k0 = key
      · subst h1
        simp [objSet, objGet, h0, Ne.symm h0]
      · simp [objSet, objGet, h0, h1, ih]

theorem lastWrite_none {β : Type} (f : ResponseRecord → String) (g : ResponseRecord → β)
    (rs : List ResponseRecord) (key : String) :
    ∀ init : Option β, (∀ r ∈ rs, f r ≠ key) → lastWrite f g rs key init = init := by
  induction rs with
  | nil => intro init _; rfl
  | cons r rest ih =>
    intro init h
    unfold lastWrite
    rw [List.foldl_cons, if_neg (h r (List.mem_cons_self r rest))]
    exact ih init (fun r' hr' => h r' (List.mem_cons_of_mem r hr'))

theorem lastWrite_of_mem {β : Type} (f : ResponseRecord → String) (g : ResponseRecord → β)
    (rs : List ResponseRecord) (key : String) :
    ∀ init : Option β, (∃ r ∈ rs, f r = key) →
      ∃ r ∈ rs, f r = key ∧ lastWrite f g rs key init = some (g r) := by
  induction rs with
  | nil => intro init h; obtain ⟨r, hr, -⟩ := h; simp at hr
  | cons r rest ih =>
    intro init h
    have hstep : lastWrite f g (r :: rest) key init =
        lastWrite f g rest key (if f r = key then some (g r) else init) := rfl
    by_cases hrest : ∃ r' ∈ rest, f r' = key
    · obtain ⟨r', hr', hk, hv⟩ := ih (if f r = key then some (g r) else init) hrest
      exact ⟨r', List.mem_cons_of_mem r hr', hk, by rw [hstep, hv]⟩
    · have hnone : ∀ r' ∈ rest, f r' ≠ key := fun r' hr' hk => hrest ⟨r', hr', hk⟩
      obtain ⟨r0, hr0, hk0⟩ := h
      have hr : f r = key := by
        rcases List.mem_cons.1 hr0 with h1 | h1
        · rw [← h1]; exact hk0
        · exact absurd hk0 (hnone r0 h1)
      refine ⟨r, List.mem_cons_self r rest, hr, ?_⟩
      rw [hstep, lastWrite_none f g rest key _ hnone, if_pos hr]

theorem lastWrite_isSome {β : Type} (f : ResponseRecord → String) (g : ResponseRecord → β)
    (rs : List ResponseRecord) (key : String) :
    (lastWrite f g rs key none).isSome = true ↔ ∃ r ∈ rs, f r = key := by
  constructor
  · intro h
    by_contra hc
    have hnone : ∀ r ∈ rs, f r ≠ key := fun r hr hk => hc ⟨r, hr, hk⟩
    rw [lastWrite_none f g rs key none hnone] at h
    simp at h
  · intro h
    obtain ⟨r, -, -, hv⟩ := lastWrite_of_mem f g rs key none h
    rw [hv]; rfl

/-- The four maps after the loop of lines 187-201: under every key, the value of
the last response visited that writes that key. -/
theorem fillTranscript_maps (s : Session) (rs : List ResponseRecord) :
    ∀ t t' : Transcript, fillTranscript s rs t = some t' →
      ∀ key : String,
        objGet t'.Questions key =
          lastWrite questionKey (fun r => (questionText s r).join) rs key
            (objGet t.Questions key) ∧
        objGet t'.CandidateAnswers key =
          lastWrite (fun r => replaceFirst (questionKey r) 'Q' 'A') (fun r => r.answer) rs key
            (objGet t.CandidateAnswers key) ∧
        objGet t'.LLMAnswers key =
          lastWrite (fun r => replaceFirst (questionKey r) 'Q' 'L')
            (fun r => r.evaluation.example_answer) rs key (objGet t.LLMAnswers key) ∧
        objGet t'.Evaluations key =
          lastWrite (fun r => replaceFirst (questionKey r) 'Q' 'E')
            (fun r => ({ score := r.evaluation.score
                         justification := r.evaluation.justification
                         improvement := r.evaluation.improvement } : EvaluationEntry))
            rs key (objGet t.Evaluations key) := by
  induction rs with
  | nil =>
    intro t t' h key
    simp only [fillTranscript, Option.some.injEq] at h
    subst h
    exact ⟨rfl, rfl, rfl, rfl⟩
  | cons r rest ih =>
    intro t t' h key
    unfold fillTranscript at h
    cases hq : questionText s r with
    | none => rw [hq] at h; cases h
    | some q =>
      rw [hq] at h
      obtain ⟨h1, h2, h3, h4⟩ := ih _ t' h key
      simp only [addEntry, objGet_objSet] at h1 h2 h3 h4
      refine ⟨?_, ?_, ?_, ?_⟩
      · rw [h1]; simp only [lastWrite, List.foldl_cons, hq, Option.join, Option.some_bind, id]
      · rw [h2]; simp only [lastWrite, List.foldl_cons]
      · rw [h3]; simp only [lastWrite, List.foldl_cons]
      · rw [h4]; simp only [lastWrite, List.foldl_cons]

theorem otherKey_eq (r : ResponseRecord) (c : Char) :
    replaceFirst (questionKey r) 'Q' c = String.singleton c ++ keySuffix r := by
  rw [questionKey_eq, replaceFirst_Q]

theorem questionText_join (s : Session) (r : ResponseRecord) :
    (r.isFollowup = false → (questionText s r).join = lookupIndex s.questions r.questionId) ∧
    (∀ k, r.isFollowup = true → r.followupIndex = some k →
      (questionText s r).join =
        (slotFollowups s r.questionId).bind (fun slot => slot.item k)) := by
  constructor
  · intro hf
    simp [questionText, hf]
  · intro k hf hk
    unfold questionText
    rw [if_pos hf, hk]
    cases slotFollowups s r.questionId with
    | none => rfl
    | some slot => rfl

/-- The keys of one map of the transcript are the keys of the responses. -/
theorem keys_of_lastWrite {β : Type} (g : ResponseRecord → β) (qa : List ResponseRecord)
    (c : Char) (f : ResponseRecord → String)
    (hf : ∀ r, f r = String.singleton c ++ keySuffix r) (key : String) :
    (lastWrite f g (sortResponses qa) key none).isSome = true ↔
      ∃ r ∈ qa, key = String.singleton c ++ keySuffix r := by
  rw [lastWrite_isSome]
  constructor
  · rintro ⟨r, hr, hk⟩
    exact ⟨r, (mem_sortResponses qa r).1 hr, by rw [← hk, hf]⟩
  · rintro ⟨r, hr, hk⟩
    exact ⟨r, (mem_sortResponses qa r).2 hr, by rw [hk, hf]⟩

/-- The value of one map of the transcript under the key of a response: the value
written for a response with the same key suffix. -/
theorem value_of_lastWrite {β : Type} (g : ResponseRecord → β) (qa : List ResponseRecord)
    (c : Char) (f : ResponseRecord → String)
    (hf : ∀ r, f r = String.singleton c ++ keySuffix r) (r : ResponseRecord) (hr : r ∈ qa) :
    ∃ r' ∈ qa, keySuffix r' = keySuffix r ∧
      lastWrite f g (sortResponses qa) (String.singleton c ++ keySuffix r) none =
        some (g r') := by
  obtain ⟨r', hr', hk, hv⟩ := lastWrite_of_mem f g (sortResponses qa)
    (String.singleton c ++ keySuffix r) none ⟨r, (mem_sortResponses qa r).2 hr, hf r⟩
  rw [hf] at hk
  exact ⟨r', (mem_sortResponses qa r').1 hr', append_cancel_front _ _ _ hk, hv⟩

/-- The loop of `/summary` on a session whose follow-up records all point at a slot
of the follow-up table yields a transcript with the key scheme. -/
theorem buildTranscript_keys (s : Session) (h : FollowupSlotsExist s) :
    ∃ t, buildTranscript s = some t ∧ TranscriptKeys s t := by
  obtain ⟨t, ht⟩ := buildTranscript_some s h
  have hmaps := fillTranscript_maps s _ _ t ht
  have hQ : ∀ r, questionKey r = String.singleton 'Q' ++ keySuffix r := questionKey_eq
  have hA : ∀ r, replaceFirst (questionKey r) 'Q' 'A' = String.singleton 'A' ++ keySuffix r :=
    fun r => otherKey_eq r 'A'
  have hL : ∀ r, replaceFirst (questionKey r) 'Q' 'L' = String.singleton 'L' ++ keySuffix r :=
    fun r => otherKey_eq r 'L'
  have hE : ∀ r, replaceFirst (questionKey r) 'Q' 'E' = String.singleton 'E' ++ keySuffix r :=
    fun r => otherKey_eq r 'E'
  have hq : ∀ r ∈ s.responses,
      objGet t.Questions ("Q" ++ keySuffix r) = some (questionText s r).join := by
    intro r hr
    rw [(hmaps _).1]
    obtain ⟨r', -, hk, hv⟩ := value_of_lastWrite (fun r => (questionText s r).join)
      s.responses 'Q' _ hQ r hr
    rw [questionText_of_keySuffix s r r' hk] at hv
    exact hv
  refine ⟨t, ht, ?_, ?_, ?_, ?_, ?_, ?_, ?_⟩
  · intro key
    rw [(hmaps key).1]
    exact keys_of_lastWrite _ s.responses 'Q' _ hQ key
  · intro key
    rw [(hmaps key).2.1]
    exact keys_of_lastWrite _ s.responses 'A' _ hA key
  · intro key
    rw [(hmaps key).2.2.1]
    exact keys_of_lastWrite _ s.responses 'L' _ hL key
  · intro key
    rw [(hmaps key).2.2.2]
    exact keys_of_lastWrite _ s.responses 'E' _ hE key
  · intro r hr hf
    have hsfx : keySuffix r = showInt (r.questionId + 1) := by simp [keySuffix, hf]
    refine ⟨hsfx, ?_⟩
    rw [← hsfx, hq r hr, (questionText_join s r).1 hf]
  · intro r hr k hf hk
    have hsfx : keySuffix r = showInt (r.questionId + 1) ++ "." ++ showInt (k + 1) := by
      simp [keySuffix, hf, hk]
    refine ⟨hsfx, ?_⟩
    rw [← hsfx, hq r hr, (questionText_join s r).2 k hf hk]
  · intro r hr huniq
    refine ⟨?_, ?_, ?_⟩
    · rw [(hmaps _).2.1]
      obtain ⟨r', hr', hk, hv⟩ := value_of_lastWrite (fun r => r.answer)
        s.responses 'A' _ hA r hr
      rw [huniq r' hr' hk] at hv
      exact hv
    · rw [(hmaps _).2.2.1]
      obtain ⟨r', hr', hk, hv⟩ := value_of_lastWrite (fun r => r.evaluation.example_answer)
        s.responses 'L' _ hL r hr
      rw [huniq r' hr' hk] at hv
      exact hv
    · rw [(hmaps _).2.2.2]
      obtain ⟨r', hr', hk, hv⟩ := value_of_lastWrite
        (fun r => ({ score := r.evaluation.score
                     justification := r.evaluation.justification
                     improvement := r.evaluation.improvement } : EvaluationEntry))
        s.responses 'E' _ hE r hr
      rw [huniq r' hr' hk] at hv
      exact hv

theorem pushFollowups_some (slots : List (Option Followups))
    (h : ∀ txt : String, some (Followups.text txt) ∉ slots) :
    ∀ acc, ∃ qs, pushFollowups slots acc = some qs := by
  induction slots with
  | nil => intro acc; exact ⟨acc, rfl⟩
  | cons slot rest ih =>
    intro acc
    have hrest : ∀ txt : String, some (Followups.text txt) ∉ rest :=
      fun txt hm => h txt (List.mem_cons_of_mem _ hm)
    cases slot with
    | none => exact ih hrest acc
    | some v =>
      cases v with
      | array xs => exact ih hrest (acc ++ xs)
      | text txt => exact absurd (List.mem_cons_self _ _) (h txt)

theorem pushFollowups_none (slots : List (Option Followups)) (txt : String)
    (h : some (Followups.text txt) ∈ slots) : ∀ acc, pushFollowups slots acc = none := by
  induction slots with
  | nil => simp at h
  | cons slot rest ih =>
    intro acc
    cases slot with
    | none =>
      have hm : some (Followups.text txt) ∈ rest := by simpa using h
      exact ih hm acc
    | some v =>
      cases v with
      | array xs =>
        have hm : some (Followups.text txt) ∈ rest := by simpa using h
        exact ih hm (acc ++ xs)
      | text t => rfl

/-- When a slot of the follow-up table holds a string, the loop of lines 159-163
throws: `/summary` sends no reply, builds no transcript and keeps the session. -/
theorem summary_throws_on_text_slot (srv : Server) (sessionId : String) (s : Session)
    (txt : String) (hg : srv.sessions.get sessionId = some s)
    (htxt : some (Followups.text txt) ∈ s.followups) :
    summary srv sessionId = (srv, .thrown) := by
  have ha : allQuestions s = none := pushFollowups_none _ txt htxt _
  simp [summary, hg, ha]

theorem fillTranscript_slots (s : Session) (rs : List ResponseRecord) :
    ∀ t t' : Transcript, fillTranscript s rs t = some t' →
      ∀ r ∈ rs, r.isFollowup = true → ∃ slot, slotFollowups s r.questionId = some slot := by
  induction rs with
  | nil => intro t t' _ r hr; simp at hr
  | cons r0 rest ih =>
    intro t t' h r hr hf
    unfold fillTranscript at h
    cases hq : questionText s r0 with
    | none => rw [hq] at h; cases h
    | some q =>
      rw [hq] at h
      rcases List.mem_cons.1 hr with hr | hr
      · subst hr
        unfold questionText at hq
        rw [if_pos hf] at hq
        cases hslot : slotFollowups s r.questionId with
        | none => rw [hslot] at hq; cases hq
        | some slot => exact ⟨slot, rfl⟩
      · exact ih _ t' h r hr hf

/-- A transcript that the loop of lines 187-201 completes has the key scheme. -/
theorem buildTranscript_keys_of_some (s : Session) (t : Transcript)
    (h : buildTranscript s = some t) : TranscriptKeys s t := by
  have hslots : FollowupSlotsExist s := by
    intro r hr hf
    exact fillTranscript_slots s _ _ t h r ((mem_sortResponses s.responses r).2 hr) hf
  obtain ⟨t0, ht0, hkeys⟩ := buildTranscript_keys s hslots
  rw [h] at ht0
  cases ht0
  exact hkeys

/-- C8, amended: every transcript that `/summary` builds for a session has, in
`Questions`, `Candidate Answers`, `LLM Answers` and `Evaluations`, exactly the
keys `Q`, `A`, `L` and `E` followed by the key suffix of a recorded response
(`q+1` for a main answer of slot `q`, `q+1.k+1` for a follow-up answer of slot `q`
with `followupIndex` `k`), so the four families have the same suffixes;
`Questions` maps the key of a main answer to `questions[q]` and the key of a
follow-up answer to `followups[q][k]` as the follow-up table stands when
`/summary` runs; and for a response that shares its key with no other response
the `A`, `L` and `E` entries hold its answer, its `example_answer` and its score,
justification and improvement.  `/summary` builds a transcript in every reachable
state in which all follow-up slots of the session hold arrays. -/
theorem summary_transcript_keys (srv : Server) (sessionId : String)
    (s : Session) (hg : srv.sessions.get sessionId = some s) :
    (∀ srv', summary srv sessionId = (srv', .ok ()) →
      ∃ t, srv' = { sessions := srv.sessions.delete sessionId,
                    transcripts := srv.transcripts ++ [t] } ∧
        TranscriptKeys s t) ∧
    (Reachable srv → (∀ txt : String, some (Followups.text txt) ∉ s.followups) →
      ∃ t, summary srv sessionId =
          ({ sessions := srv.sessions.delete sessionId,
             transcripts := srv.transcripts ++ [t] }, .ok ()) ∧
        TranscriptKeys s t) := by
  constructor
  · intro srv' h
    unfold summary at h
    simp only [hg] at h
    cases ha : allQuestions s with
    | none => simp [ha] at h
    | some qs =>
      simp only [ha] at h
      cases hb : buildTranscript s with
      | none => simp [hb] at h
      | some t =>
        simp only [hb, Prod.mk.injEq] at h
        exact ⟨t, h.1.symm, buildTranscript_keys_of_some s t hb⟩
  · intro hreach harr
    obtain ⟨t, ht, hkeys⟩ :=
      buildTranscript_keys s (reachable_sessions_inv srv hreach sessionId s hg).slots
    obtain ⟨qs, hqs⟩ := pushFollowups_some s.followups harr s.questions
    have ha : allQuestions s = some qs := hqs
    refine ⟨t, ?_, hkeys⟩
    simp [summary, hg, ha, ht]

theorem afterSecondFollowup_eq :
    answer afterFirstAnswer 3000 (followupRequest 0 1) (some (sampleReply (.num 9) [])) =
      (afterSecondFollowup, .ok (.array [])) ∧
    afterSecondFollowup =
      { sessions := [("s1",
          { installedSession with
            responses := installedSession.responses ++
              [{ questionId := 0, answer := some (.str "Wrap it in IFERROR"),
                 evaluation :=
                   { score := (jsRound (9 * 10) : ℚ) / 10
                     justification := some (.str "clear")
                     improvement := some (.str "add an example")
                     example_answer := some (.str "INDEX/MATCH looks up in any direction")
                     followups := some (.array []) },
                 isFollowup := true, followupIndex := some 1 }] })]
        transcripts := [] } := by
  unfold afterSecondFollowup
  rw [afterFirstAnswer_eq]
  simp [answer, installedSession, Store.get, Store.put, answerSession, sampleSession,
    newSession, followupRequest, truthy, JVal.truthy, resolveQuestion, slotFollowups,
    Followups.item, lookupIndex,
    normalizeEvaluation_sample 9 (by norm_num) (by norm_num)]

theorem afterOverwrite_eq :
    afterOverwrite = { sessions := [("s1", overwrittenSession)], transcripts := [] } := by
  unfold afterOverwrite
  rw [afterSecondFollowup_eq.2]
  simp [answer, installedSession, overwrittenSession, Store.get, Store.put, answerSession,
    sampleSession, mainRequest, newSession, resolveQuestion, lookupIndex, fallbackQuestions,
    truthy, JVal.truthy, hasFollowups, Followups.nonEmpty, Followups.orEmpty, slotFollowups,
    assignIndex, normalizeEvaluation_sample 6 (by norm_num) (by norm_num), List.replicate]

theorem afterOverwrite_reachable : Reachable afterOverwrite :=
  Reachable.answer _ _ _ _ (Reachable.answer _ _ _ _ afterFirstAnswer_reachable)

/-- C8, counterexample: session `s1` answers the follow-up question `F2` (position 1
of slot 0), then answers the main question of slot 0 again and the evaluator
returns `[G1]`.  `/summary` succeeds, and in its transcript the key `Q1.2` of that
follow-up answer is mapped to `undefined`, not to `F2`, while `A1.2` holds the
answer given to `F2`. -/
theorem transcript_question_not_the_answered_one :
    Reachable afterOverwrite ∧
    resolveQuestion installedSession (followupRequest 0 1) = some (some (.str "F2")) ∧
    answer afterFirstAnswer 3000 (followupRequest 0 1) (some (sampleReply (.num 9) [])) =
      (afterSecondFollowup, .ok (.array [])) ∧
    afterOverwrite.sessions.get "s1" = some overwrittenSession ∧
    (∃ r ∈ overwrittenSession.responses,
      r.isFollowup = true ∧ r.questionId = 0 ∧ r.followupIndex = some 1) ∧
    ∃ t, summary afterOverwrite "s1" = ({ sessions := [], transcripts := [t] }, .ok ()) ∧
      objGet t.Questions "Q1.2" = some none ∧
      objGet t.CandidateAnswers "A1.2" = some (some (.str "Wrap it in IFERROR")) := by
  have hb : ∃ t, buildTranscript overwrittenSession = some t ∧
      objGet t.Questions "Q1.2" = some none ∧
      objGet t.CandidateAnswers "A1.2" = some (some (.str "Wrap it in IFERROR")) :=
    ⟨_, rfl, rfl, rfl⟩
  obtain ⟨t, ht, hq, ha⟩ := hb
  refine ⟨afterOverwrite_reachable, ?_, afterSecondFollowup_eq.1, ?_, ?_, t, ?_, hq, ha⟩
  · simp [resolveQuestion, followupRequest, installedSession, slotFollowups, Followups.item,
      lookupIndex]
  · rw [afterOverwrite_eq]; simp [Store.get]
  · exact ⟨_, List.mem_cons_of_mem _ (List.mem_cons_self _ _), rfl, rfl, rfl⟩
  · rw [afterOverwrite_eq]
    have hall : allQuestions overwrittenSession =
        some (fallbackQuestions ++ [.str "G1"]) := by
      simp [allQuestions, pushFollowups, overwrittenSession, sampleSession, newSession,
        List.replicate]
    simp [summary, Store.get, Store.delete, hall, ht]

theorem afterFollowupAnswer_reachable : Reachable afterFollowupAnswer :=
  Reachable.answer _ _ _ _ afterFirstAnswer_reachable

theorem afterFollowupAnswer_get :
    afterFollowupAnswer.sessions.get "s1" =
      some { installedSession with
        responses := installedSession.responses ++
          [{ questionId := 0, answer := some (.str "Wrap it in IFERROR"),
             evaluation := normalizeEvaluation (some (sampleReply (.num 9) [.str "second level"])),
             isFollowup := true, followupIndex := some 0 }] } := by
  unfold afterFollowupAnswer
  rw [answer_get, afterFirstAnswer_get]
  simp [answerSession, installedSession, sampleSession, newSession, followupRequest, truthy,
    JVal.truthy, resolveQuestion, slotFollowups, Followups.item, lookupIndex]

/-- Witness of C8 (amended): the session `s1` after a main answer and a follow-up
answer to slot 0. -/
theorem summary_transcript_keys_witness :
    afterFollowupAnswer.sessions.get "s1" =
      some { installedSession with
        responses := installedSession.responses ++
          [{ questionId := 0, answer := some (.str "Wrap it in IFERROR"),
             evaluation := normalizeEvaluation (some (sampleReply (.num 9) [.str "second level"])),
             isFollowup := true, followupIndex := some 0 }] } ∧
    ∃ t, summary afterFollowupAnswer "s1" =
        ({ sessions := afterFollowupAnswer.sessions.delete "s1",
           transcripts := afterFollowupAnswer.transcripts ++ [t] }, .ok ()) ∧
      TranscriptKeys { installedSession with
        responses := installedSession.responses ++
          [{ questionId := 0, answer := some (.str "Wrap it in IFERROR"),
             evaluation := normalizeEvaluation (some (sampleReply (.num 9) [.str "second level"])),
             isFollowup := true, followupIndex := some 0 }] } t :=
  ⟨afterFollowupAnswer_get,
    (summary_transcript_keys afterFollowupAnswer "s1" _ afterFollowupAnswer_get).2
      afterFollowupAnswer_reachable
      (by
        intro txt hm
        simp [installedSession, List.replicate] at hm)⟩

/-- The transcript of the session `s1` after a main answer and a follow-up answer to
slot 0 has the keys `Q1`, `Q1.1`, `A1`, `A1.1`, `L1`, `L1.1`, `E1`, `E1.1`. -/
theorem afterFollowupAnswer_transcript :
    ∃ s t, afterFollowupAnswer.sessions.get "s1" = some s ∧ buildTranscript s = some t ∧
      t.Questions = [("Q1", some (.str "What are advanced uses of VLOOKUP in Excel?")),
        ("Q1.1", some (.str "F1"))] ∧
      t.CandidateAnswers = [("A1", some (.str "Use INDEX with MATCH")),
        ("A1.1", some (.str "Wrap it in IFERROR"))] ∧
      t.LLMAnswers.map Prod.fst = ["L1", "L1.1"] ∧
      t.Evaluations.map Prod.fst = ["E1", "E1.1"] :=
  ⟨_, _, afterFollowupAnswer_get, rfl, rfl, rfl, by decide, by decide⟩

/-- A string returned as `followups` is installed like an array (line 134 only tests
its length), its characters then pass as follow-up questions, and `/summary` throws
for that session. -/
theorem text_followups_block_summary :
    Reachable afterTextReply ∧
    (afterTextReply.sessions.get "s1").bind (fun s => slotFollowups s 0) =
      some (.text "Explain XLOOKUP") ∧
    summary afterTextReply "s1" = (afterTextReply, .thrown) := by
  have heq : afterTextReply =
      { sessions := [("s1",
          { sampleSession with
            followups := some (.text "Explain XLOOKUP") :: List.replicate 9 (some (.array []))
            responses :=
              [{ questionId := 0, answer := some (.str "Use INDEX with MATCH"),
                 evaluation :=
                   { score := (jsRound (8 * 10) : ℚ) / 10
                     justification := some (.str "clear")
                     improvement := some (.str "add an example")
                     example_answer := some (.str "INDEX/MATCH looks up in any direction")
                     followups := none },
                 isFollowup := false, followupIndex := none }] })]
        transcripts := [] } := by
    have hn : normalizeEvaluation (some (textReply (.num 8) "Explain XLOOKUP")) =
        { score := (jsRound (8 * 10) : ℚ) / 10
          justification := some (.str "clear")
          improvement := some (.str "add an example")
          example_answer := some (.str "INDEX/MATCH looks up in any direction")
          followups := some (.text "Explain XLOOKUP") } := by
      have hc : ¬ ((8 : ℚ) < 0 ∨ (8 : ℚ) > 10) := by norm_num
      simp only [normalizeEvaluation, textReply]
      rw [if_neg hc]
    simp [afterTextReply, answer, sampleServer, Store.get, Store.put, answerSession,
      sampleSession, mainRequest, newSession, resolveQuestion, lookupIndex, fallbackQuestions,
      truthy, JVal.truthy, hasFollowups, Followups.nonEmpty, Followups.orEmpty, slotFollowups,
      assignIndex, hn, List.replicate]
  have hreach : Reachable sampleServer := by
    rw [sampleServer_start]
    exact Reachable.start _ _ _ _ _ _ (Reachable.init [])
  refine ⟨Reachable.answer _ _ _ _ hreach, ?_, ?_⟩
  · rw [heq]
    simp [Store.get, slotFollowups, lookupIndex]
  · rw [heq]
    exact summary_throws_on_text_slot _ "s1" _ "Explain XLOOKUP" rfl
      (List.mem_cons_self _ _)

end InterviewBot
